import Mathlib

/-!
# Theme manager and analytics tracker (`public/js/theme-analytics.js`)

A shallow embedding of the page script: the cookie helpers, the in-memory
analytics log with its cookie flush, the theme manager and the scroll listener,
followed by the properties of the specification that they satisfy.

## Conventions

* A JavaScript string is a list of characters (`Str`).
* One record, `World`, holds what the script reads and writes: the cookie store
  of the page, the theme state of the document (the `data-theme` attribute, the
  class list of the body, the custom properties, the toggle button), the objects
  `AnalyticsData` and `ThemeManager.currentTheme`, and the variable `maxScroll`
  of the scroll listener. The document has a body.
* The clock is a stream of readings; `Date.now()` and `new Date()` take the
  next one.
* `document.cookie` follows RFC 6265: an assignment stores the text up to the
  first semicolon as `name=value`, trimmed; reading joins the cookies with `; `.
  The store has no size limit and the attributes are not interpreted.
* `JSON.stringify` and `JSON.parse` work on the syntax tree `Json`; a number is
  kept as its numeral. The details of an interaction are a `Json` value.
* An exception is modelled where the script catches one: inside the `try` of
  the flush (`flushFault` names the call that throws) and inside the `try` of
  `getAnalyticsData` (`none` from the parser).
* The scroll percentage is computed in IEEE 754 double-precision arithmetic:
  the division and the multiplication round to the nearest double, ties to
  even, with subnormal numbers and overflow to an infinity.
-/

namespace ThemeAnalytics

/-- A JavaScript string, as the list of its characters. -/
abbrev Str := List Char

/-! ## Cookie management -/

/-- The method `String.prototype.split` with a one-character separator: the
pieces between the separators, an empty string giving one empty piece. -/
def split (sep : Char) : Str → List Str
  | [] => [[]]
  | c :: cs =>
    if c = sep then [] :: split sep cs
    else
      match split sep cs with
      | [] => [[c]]
      | seg :: segs => (c :: seg) :: segs

/-- The loop `while (c.charAt(0) === ' ') c = c.substring(1, c.length)`. -/
def stripLeadingSpaces : Str → Str
  | [] => []
  | c :: cs => if c = ' ' then stripLeadingSpaces cs else c :: cs

/-- The test `c.indexOf(nameEQ) === 0`: the segment begins with `nameEQ`. -/
def startsWith : Str → Str → Bool
  | [], _ => true
  | _ :: _, [] => false
  | p :: ps, c :: cs => if p = c then startsWith ps cs else false

/-- The loop of `getCookie` over the segments `ca[i]`, from the first on. -/
def getCookieLoop (nameEQ : Str) : List Str → Option Str
  | [] => none
  | seg :: rest =>
    let c := stripLeadingSpaces seg
    if startsWith nameEQ c then some (c.drop nameEQ.length)
    else getCookieLoop nameEQ rest

/-- The function `getCookie(name)`, on the string `document.cookie` returns;
`none` is `null`. -/
def getCookie (cookie : Str) (name : Str) : Option Str :=
  getCookieLoop (name ++ ['=']) (split ';' cookie)

/-! ### The specification's reading of `get(name)` -/

/-- The key of a segment: the text before its first `=`, when it has one. -/
def segmentKey (seg : Str) : Option Str :=
  if '=' ∈ seg then some (seg.takeWhile (fun c => c != '=')) else none

/-- The value of a segment: the text after its first `=`. -/
def segmentValue (seg : Str) : Str :=
  (seg.dropWhile (fun c => c != '=')).drop 1

/-- The segments of a cookie string: split on `;`, leading spaces stripped. -/
def cookieSegments (cookie : Str) : List Str :=
  (split ';' cookie).map stripLeadingSpaces

/-- The lookup as the specification words it: the value of the first segment
whose key is exactly `name`, absent when no segment has that key. -/
def getCookieSpec (cookie : Str) (name : Str) : Option Str :=
  ((cookieSegments cookie).find? (fun seg => decide (segmentKey seg = some name))).map
    segmentValue

/-! ## JSON -/

/-- A JSON value, as the syntax tree of its text. A number is kept as its
numeral; an object is the list of its members in order. -/
inductive Json where
  | null
  | bool (b : Bool)
  | num (numeral : Str)
  | str (s : Str)
  | arr (items : List Json)
  | obj (members : List (Str × Json))

/-- One hexadecimal digit, lower case. -/
def hexDigit (n : Nat) : Char :=
  if n < 10 then Char.ofNat (48 + n) else Char.ofNat (87 + n)

/-- The text `JSON.stringify` writes for one character inside a string. -/
def escapeChar (c : Char) : Str :=
  if c = '"' then ['\\', '"']
  else if c = '\\' then ['\\', '\\']
  else if c = '\x08' then ['\\', 'b']
  else if c = '\x0c' then ['\\', 'f']
  else if c = '\n' then ['\\', 'n']
  else if c = '\r' then ['\\', 'r']
  else if c = '\t' then ['\\', 't']
  else if c.toNat < 32 then ['\\', 'u', '0', '0', hexDigit (c.toNat / 16), hexDigit (c.toNat % 16)]
  else [c]

/-- The body of a quoted string: every character escaped. -/
def escape : Str → Str
  | [] => []
  | c :: cs => escapeChar c ++ escape cs

/-- A string as `JSON.stringify` quotes it. -/
def quote (s : Str) : Str := '"' :: escape s ++ ['"']

/-- The decimal digits of a number, most significant first, with `fuel`
bounding the number of digits. -/
def decimalAux : Nat → Nat → Str → Str
  | 0, _, acc => acc
  | fuel + 1, n, acc =>
    if n < 10 then Char.ofNat (48 + n) :: acc
    else decimalAux fuel (n / 10) (Char.ofNat (48 + n % 10) :: acc)

/-- The numeral `JSON.stringify` writes for a non-negative integer (below
`10^21`, where JavaScript turns to exponent form). -/
def decimal (n : Nat) : Str := decimalAux (n + 1) n []

mutual
/-- The text `JSON.stringify(value)` returns, without indentation. -/
def Json.stringify : Json → Str
  | .null => ['n', 'u', 'l', 'l']
  | .bool b => if b then ['t', 'r', 'u', 'e'] else ['f', 'a', 'l', 's', 'e']
  | .num numeral => numeral
  | .str s => quote s
  | .arr items => '[' :: stringifyItems items ++ [']']
  | .obj members => '{' :: stringifyMembers members ++ ['}']
/-- The elements of an array, separated by commas. -/
def stringifyItems : List Json → Str
  | [] => []
  | [v] => v.stringify
  | v :: w :: rest => v.stringify ++ ',' :: stringifyItems (w :: rest)
/-- The members of an object, separated by commas. -/
def stringifyMembers : List (Str × Json) → Str
  | [] => []
  | [(k, v)] => quote k ++ ':' :: v.stringify
  | (k, v) :: m :: rest => quote k ++ ':' :: v.stringify ++ ',' :: stringifyMembers (m :: rest)
end

/-- JSON white space. -/
def isWs (c : Char) : Bool := c = ' ' || c = '\t' || c = '\n' || c = '\r'

/-- Skip white space. -/
def skipWs : Str → Str
  | [] => []
  | c :: cs => if isWs c then skipWs cs else c :: cs

/-- The value of a hexadecimal digit. -/
def hexValue (c : Char) : Option Nat :=
  if '0' ≤ c ∧ c ≤ '9' then some (c.toNat - 48)
  else if 'a' ≤ c ∧ c ≤ 'f' then some (c.toNat - 87)
  else if 'A' ≤ c ∧ c ≤ 'F' then some (c.toNat - 55)
  else none

/-- The code unit of the four hexadecimal digits of a `\u` escape. -/
def hex4 (a b c d : Char) : Option Nat :=
  match hexValue a, hexValue b, hexValue c, hexValue d with
  | some w, some x, some y, some z => some (((w * 16 + x) * 16 + y) * 16 + z)
  | _, _, _, _ => none

/-- The character of a one-letter escape. -/
def unescape (c : Char) : Option Char :=
  if c = '"' then some '"'
  else if c = '\\' then some '\\'
  else if c = '/' then some '/'
  else if c = 'b' then some '\x08'
  else if c = 'f' then some '\x0c'
  else if c = 'n' then some '\n'
  else if c = 'r' then some '\r'
  else if c = 't' then some '\t'
  else none

/-- What stands at the head of a string body. -/
inductive StringItem where
  | close (rest : Str)
  | char (c : Char) (rest : Str)
  | error

/-- Read one item of a string body: the closing quote, or one character, raw
or escaped. A raw control character is an error. A pair of `\u` escapes that
are the two surrogates of one character gives that character; a surrogate
alone, which has no character of its own, gives U+FFFD. -/
def readStringItem : Str → StringItem
  | [] => .error
  | c :: rest =>
    if c = '"' then .close rest
    else if c = '\\' then
      match rest with
      | [] => .error
      | e :: rest1 =>
        if e = 'u' then
          match rest1 with
          | h1 :: h2 :: h3 :: h4 :: rest2 =>
            match hex4 h1 h2 h3 h4 with
            | none => .error
            | some n =>
              if 0xD800 ≤ n ∧ n < 0xDC00 then
                match rest2 with
                | b :: u :: l1 :: l2 :: l3 :: l4 :: rest3 =>
                  match hex4 l1 l2 l3 l4 with
                  | some m =>
                    if b = '\\' ∧ u = 'u' ∧ 0xDC00 ≤ m ∧ m < 0xE000 then
                      .char (Char.ofNat (0x10000 + (n - 0xD800) * 0x400 + (m - 0xDC00))) rest3
                    else .char (Char.ofNat 0xFFFD) rest2
                  | none => .char (Char.ofNat 0xFFFD) rest2
                | _ => .char (Char.ofNat 0xFFFD) rest2
              else if 0xDC00 ≤ n ∧ n < 0xE000 then .char (Char.ofNat 0xFFFD) rest2
              else .char (Char.ofNat n) rest2
          | _ => .error
        else
          match unescape e with
          | some ch => .char ch rest1
          | none => .error
    else if c.toNat < 32 then .error
    else .char c rest

/-- Read the items of a string body up to its closing quote. -/
def parseStringLoop : Nat → Str → Option (Str × Str)
  | 0, _ => none
  | fuel + 1, s =>
    match readStringItem s with
    | .close rest => some ([], rest)
    | .char c rest =>
      match parseStringLoop fuel rest with
      | some (t, rest1) => some (c :: t, rest1)
      | none => none
    | .error => none

/-- Read a string after its opening quote: its characters and the input after
its closing quote. -/
def parseStringBody (s : Str) : Option (Str × Str) :=
  parseStringLoop (s.length + 1) s

/-- The digits at the head of the input and what follows them. -/
def scanDigits : Str → Str × Str
  | [] => ([], [])
  | c :: cs =>
    if c.isDigit then ((c :: (scanDigits cs).1), (scanDigits cs).2) else ([], c :: cs)

/-- The integer part of a numeral: `0`, or a non-zero digit and digits. -/
def scanInt : Str → Option (Str × Str)
  | [] => none
  | c :: cs =>
    if c = '0' then some (['0'], cs)
    else if c.isDigit then some (c :: (scanDigits cs).1, (scanDigits cs).2)
    else none

/-- The optional fraction of a numeral: a point and at least one digit. -/
def scanFrac : Str → Option (Str × Str)
  | [] => some ([], [])
  | c :: cs =>
    if c = '.' then
      (if (scanDigits cs).1 = [] then none else some ('.' :: (scanDigits cs).1, (scanDigits cs).2))
    else some ([], c :: cs)

/-- The digits of an exponent, after its letter and sign. -/
def scanExpDigits (pre : Str) (s : Str) : Option (Str × Str) :=
  if (scanDigits s).1 = [] then none else some (pre ++ (scanDigits s).1, (scanDigits s).2)

/-- The optional exponent of a numeral. -/
def scanExp : Str → Option (Str × Str)
  | [] => some ([], [])
  | c :: cs =>
    if c = 'e' ∨ c = 'E' then
      match cs with
      | [] => none
      | d :: ds =>
        if d = '+' ∨ d = '-' then scanExpDigits [c, d] ds else scanExpDigits [c] (d :: ds)
    else some ([], c :: cs)

/-- A numeral without its sign. -/
def scanUnsigned (s : Str) : Option (Str × Str) :=
  match scanInt s with
  | none => none
  | some (i, s1) =>
    match scanFrac s1 with
    | none => none
    | some (f, s2) =>
      match scanExp s2 with
      | none => none
      | some (e, s3) => some (i ++ f ++ e, s3)

/-- The numeral at the head of the input, by the JSON grammar, and what
follows it. -/
def scanNumber : Str → Option (Str × Str)
  | [] => none
  | c :: cs =>
    if c = '-' then
      match scanUnsigned cs with
      | some (t, rest) => some ('-' :: t, rest)
      | none => none
    else scanUnsigned (c :: cs)

/-- Parse the rest of a literal name. -/
def expectWord (word : Str) (v : Json) (s : Str) : Option (Json × Str) :=
  if startsWith word s then some (v, s.drop word.length) else none

mutual
/-- Parse one value, skipping the white space before it. -/
def parseValue : Nat → Str → Option (Json × Str)
  | 0, _ => none
  | fuel + 1, s =>
    match skipWs s with
    | [] => none
    | c :: rest =>
      if c = 'n' then expectWord ['u', 'l', 'l'] .null rest
      else if c = 't' then expectWord ['r', 'u', 'e'] (.bool true) rest
      else if c = 'f' then expectWord ['a', 'l', 's', 'e'] (.bool false) rest
      else if c = '"' then
        match parseStringBody rest with
        | some (t, rest1) => some (.str t, rest1)
        | none => none
      else if c = '[' then
        match skipWs rest with
        | [] => none
        | d :: rest1 =>
          if d = ']' then some (.arr [], rest1)
          else
            match parseItems fuel rest with
            | some (items, rest2) => some (.arr items, rest2)
            | none => none
      else if c = '{' then
        match skipWs rest with
        | [] => none
        | d :: rest1 =>
          if d = '}' then some (.obj [], rest1)
          else
            match parseMembers fuel rest with
            | some (members, rest2) => some (.obj members, rest2)
            | none => none
      else
        match scanNumber (c :: rest) with
        | some (numeral, rest1) => some (.num numeral, rest1)
        | none => none
/-- Parse the elements of a non-empty array, up to its closing bracket. -/
def parseItems : Nat → Str → Option (List Json × Str)
  | 0, _ => none
  | fuel + 1, s =>
    match parseValue fuel s with
    | none => none
    | some (v, rest) =>
      match skipWs rest with
      | [] => none
      | c :: rest1 =>
        if c = ',' then
          match parseItems fuel rest1 with
          | some (vs, rest2) => some (v :: vs, rest2)
          | none => none
        else if c = ']' then some ([v], rest1)
        else none
/-- Parse the members of a non-empty object, up to its closing brace. -/
def parseMembers : Nat → Str → Option (List (Str × Json) × Str)
  | 0, _ => none
  | fuel + 1, s =>
    match skipWs s with
    | [] => none
    | q :: rest =>
      if q = '"' then
        match parseStringBody rest with
        | none => none
        | some (k, rest1) =>
          match skipWs rest1 with
          | [] => none
          | colon :: rest2 =>
            if colon = ':' then
              match parseValue fuel rest2 with
              | none => none
              | some (v, rest3) =>
                match skipWs rest3 with
                | [] => none
                | c :: rest4 =>
                  if c = ',' then
                    match parseMembers fuel rest4 with
                    | some (ms, rest5) => some ((k, v) :: ms, rest5)
                    | none => none
                  else if c = '}' then some ([(k, v)], rest4)
                  else none
            else none
      else none
end

/-- The value `JSON.parse(text)` returns; `none` is its `SyntaxError`. -/
def jsonParse (text : Str) : Option Json :=
  match parseValue (2 * text.length + 2) text with
  | some (v, rest) => if skipWs rest = [] then some v else none
  | none => none


/-! ## The browser's cookie store -/

/-- One cookie of the page: its name and its value. -/
structure Cookie where
  name : Str
  value : Str
  deriving DecidableEq

/-- The string `document.cookie` returns: the cookies as `name=value`, joined
by a semicolon and a space. -/
def documentCookie : List Cookie → Str
  | [] => []
  | [c] => c.name ++ '=' :: c.value
  | c :: d :: rest => c.name ++ '=' :: c.value ++ ';' :: ' ' :: documentCookie (d :: rest)

/-- Remove the leading white space (space, tab) of a cookie name or value. -/
def trimLeft : Str → Str
  | [] => []
  | c :: cs => if c = ' ' ∨ c = '\t' then trimLeft cs else c :: cs

/-- Remove the leading and trailing white space of a cookie name or value. -/
def trim (s : Str) : Str := (trimLeft (trimLeft s).reverse).reverse

/-- Put a cookie in the store: in the place of the cookie of that name when
there is one, at the end otherwise. -/
def storeCookie (name value : Str) : List Cookie → List Cookie
  | [] => [⟨name, value⟩]
  | c :: rest =>
    if c.name = name then ⟨name, value⟩ :: rest else c :: storeCookie name value rest

/-- Take the cookie of a name out of the store. -/
def removeCookie (name : Str) : List Cookie → List Cookie
  | [] => []
  | c :: rest => if c.name = name then removeCookie name rest else c :: removeCookie name rest

/-- The value the store holds for a name. -/
def cookieValue (name : Str) : List Cookie → Option Str
  | [] => none
  | c :: rest => if c.name = name then some c.value else cookieValue name rest

/-- The assignment `document.cookie = text + ";expires=...;path=/..."`, as the
browser reads it (RFC 6265, section 5.2): the name-value pair is the text up to
the first semicolon, the name what precedes its first `=`, the value what
follows, both trimmed; a pair without `=` or with an empty name is ignored; an
expiry in the past removes the cookie. What follows a semicolon inside `text`
is read as attributes, which are not interpreted here. -/
def assignCookie (text : Str) (expired : Bool) (jar : List Cookie) : List Cookie :=
  let pair := text.takeWhile (fun c => c != ';')
  if '=' ∈ pair then
    let name := trim (pair.takeWhile (fun c => c != '='))
    let value := trim ((pair.dropWhile (fun c => c != '=')).drop 1)
    if name = [] then jar
    else if expired then removeCookie name jar
    else storeCookie name value jar
  else jar

/-- The invariant of the browser's store: a name is not empty, has no `=`, no
semicolon and no leading space; a value has no semicolon; no two cookies have
the same name. -/
def JarWF (jar : List Cookie) : Prop :=
  (∀ c ∈ jar, c.name ≠ [] ∧ '=' ∉ c.name ∧ ';' ∉ c.name ∧ c.name.head? ≠ some ' ' ∧
    ';' ∉ c.value) ∧
  (jar.map Cookie.name).Nodup

/-! ## The page -/

/-- The target of an event, with the three properties the tracker reads;
`none` is a property the target lacks. -/
structure Element where
  tagName : Option Str
  id : Option Str
  className : Option Str

/-- A page-view record. -/
structure PageView where
  timestamp : Nat
  url : Str
  path : Str
  title : Str
  referrer : Str
  timeOnPage : Int
  deriving DecidableEq

/-- An interaction record. -/
structure Interaction where
  timestamp : Nat
  type : Str
  element : Str
  elementId : Str
  elementClass : Str
  details : Json
  page : Str

/-- A theme-change record; `fromTheme` and `toTheme` are its properties `from`
and `to`. -/
structure ThemeChange where
  timestamp : Nat
  fromTheme : Str
  toTheme : Str
  page : Str
  deriving DecidableEq

/-- The object `AnalyticsData`. The three snapshots of the environment are
kept as the JSON values they serialize to. -/
structure AnalyticsData where
  sessionId : Str
  userId : Str
  startTime : Nat
  pageViews : List PageView
  interactions : List Interaction
  themeChanges : List ThemeChange
  deviceInfo : Json
  browserInfo : Json
  screenInfo : Json
  timezone : Str
  language : Str
  referrer : Str
  currentPage : Str
  userAgent : Str

/-- The button `#theme-toggle`. -/
structure ToggleButton where
  className : Str
  ariaLabel : Str
  innerHTML : Str
  inNav : Bool
  deriving DecidableEq

/-- The calls inside the `try` block of `saveAnalyticsToCookie` that can
throw. -/
inductive FlushStep where
  | serializeData
  | writeData
  | serializeInteractions
  | writeInteractions
  | serializeThemeChanges
  | writeThemeChanges
  deriving DecidableEq

/-- A value of the scroll percentage: a JavaScript number that is an integer,
an infinity or `NaN`. -/
inductive Percent where
  | finite (n : Int)
  | infinity
  | negInfinity
  | nan
  deriving DecidableEq

/-- The state of the page and of the script. `clock` gives the successive
readings of the system clock and `ticks` counts the readings made so far.
`flushFault` names the call of the next flushes that throws, when one does. -/
structure World where
  cookies : List Cookie
  clock : Nat → Nat
  ticks : Nat
  href : Str
  pathname : Str
  title : Str
  referrer : Str
  prefersDark : Bool
  dataTheme : Option Str
  bodyClasses : List Str
  style : List (Str × Str)
  toggle : Option ToggleButton
  hasNavContainer : Bool
  console : List Str
  flushFault : Option FlushStep
  analytics : AnalyticsData
  currentTheme : Str
  maxScroll : Percent

/-- The reading `Date.now()` returns. -/
def World.now (w : World) : Nat := w.clock w.ticks

/-- The world after a reading of the clock. -/
def World.tick (w : World) : World := { w with ticks := w.ticks + 1 }

/-- The function `setCookie(name, value)`, with its default of 365 days: it
reads the clock for the expiry date, which lies in the future, and assigns
`name=value` with the attributes to `document.cookie`. -/
def setCookie (name value : Str) (w : World) : World :=
  { w.tick with cookies := assignCookie (name ++ '=' :: value) false w.cookies }

/-- The function `deleteCookie(name)`: it assigns an empty value with an
expiry date in the past. -/
def deleteCookie (name : Str) (w : World) : World :=
  { w with cookies := assignCookie (name ++ ['=']) true w.cookies }

/-! ## Analytics tracking -/

/-- The expression `value || fallback` on a string that may be undefined. -/
def orElse (value : Option Str) (fallback : Str) : Str :=
  match value with
  | some (c :: cs) => c :: cs
  | _ => fallback

/-- The method `slice(-n)`: the last `n` elements. -/
def sliceLast (n : Nat) (l : List α) : List α := l.drop (l.length - n)

/-- A number that is a non-negative integer, as a JSON value. -/
def Json.ofNat (n : Nat) : Json := .num (decimal n)

/-- An interaction record as the JSON value it serializes to. -/
def Interaction.toJson (i : Interaction) : Json :=
  .obj [("timestamp".toList, Json.ofNat i.timestamp),
    ("type".toList, .str i.type),
    ("element".toList, .str i.element),
    ("elementId".toList, .str i.elementId),
    ("elementClass".toList, .str i.elementClass),
    ("details".toList, i.details),
    ("page".toList, .str i.page)]

/-- A theme-change record as the JSON value it serializes to. -/
def ThemeChange.toJson (c : ThemeChange) : Json :=
  .obj [("timestamp".toList, Json.ofNat c.timestamp),
    ("from".toList, .str c.fromTheme),
    ("to".toList, .str c.toTheme),
    ("page".toList, .str c.page)]

/-- The object `dataToStore` of the flush, as a JSON value. -/
def dataToStore (a : AnalyticsData) (lastUpdate : Nat) : Json :=
  .obj [("userId".toList, .str a.userId),
    ("sessionId".toList, .str a.sessionId),
    ("pageViewCount".toList, Json.ofNat a.pageViews.length),
    ("interactionCount".toList, Json.ofNat a.interactions.length),
    ("themeChangeCount".toList, Json.ofNat a.themeChanges.length),
    ("lastUpdate".toList, Json.ofNat lastUpdate),
    ("deviceInfo".toList, a.deviceInfo),
    ("browserInfo".toList, a.browserInfo),
    ("screenInfo".toList, a.screenInfo),
    ("timezone".toList, .str a.timezone),
    ("language".toList, .str a.language)]

/-- The text written to `analytics_interactions`: the last 20 records. -/
def interactionsText (a : AnalyticsData) : Str :=
  (Json.arr ((sliceLast 20 a.interactions).map Interaction.toJson)).stringify

/-- The text written to `analytics_theme_changes`: the last 10 records. -/
def themeChangesText (a : AnalyticsData) : Str :=
  (Json.arr ((sliceLast 10 a.themeChanges).map ThemeChange.toJson)).stringify

/-- The assignment to `document.cookie` throws: the clock has been read for
the expiry date and the store is as before. -/
def failedWrite (w : World) : World := w.tick

/-- The `try` block of `saveAnalyticsToCookie`: the world it leaves and
whether it threw. The clock is read for `lastUpdate`; then the three values are
serialized and written in turn, up to the call that throws. -/
def flushBody (w : World) : World × Bool :=
  let w0 := w.tick
  let data := dataToStore w.analytics w.now
  if w.flushFault = some .serializeData then (w0, true)
  else if w.flushFault = some .writeData then (failedWrite w0, true)
  else
    let w1 := setCookie "analytics_data".toList data.stringify w0
    if w.flushFault = some .serializeInteractions then (w1, true)
    else if w.flushFault = some .writeInteractions then (failedWrite w1, true)
    else
      let w2 := setCookie "analytics_interactions".toList (interactionsText w.analytics) w1
      if w.flushFault = some .serializeThemeChanges then (w2, true)
      else if w.flushFault = some .writeThemeChanges then (failedWrite w2, true)
      else (setCookie "analytics_theme_changes".toList (themeChangesText w.analytics) w2, false)

/-- The function `saveAnalyticsToCookie()`: the `try` block, and in the `catch`
a line on the console. It returns normally in both cases. -/
def saveAnalyticsToCookie (w : World) : World :=
  if (flushBody w).2 then
    { (flushBody w).1 with
      console := (flushBody w).1.console ++ ["Analytics save error:".toList] }
  else (flushBody w).1

/-- The function `trackPageView()`. -/
def trackPageView (w : World) : World :=
  let pageView : PageView :=
    { timestamp := w.now, url := w.href, path := w.pathname, title := w.title,
      referrer := orElse (some w.referrer) "direct".toList, timeOnPage := 0 }
  let w1 := w.tick
  saveAnalyticsToCookie
    { w1 with analytics := { w1.analytics with pageViews := w1.analytics.pageViews ++ [pageView] } }

/-- The record `trackInteraction` builds; `details` is `none` when the
argument is left out, which gives the empty object. -/
def newInteraction (type : Str) (element : Option Element) (details : Option Json)
    (w : World) : Interaction :=
  { timestamp := w.now
    type := type
    element := orElse (element.bind Element.tagName) "unknown".toList
    elementId := orElse (element.bind Element.id) "none".toList
    elementClass := orElse (element.bind Element.className) "none".toList
    details := details.getD (.obj [])
    page := w.pathname }

/-- The function `trackInteraction(type, element, details)`. -/
def trackInteraction (type : Str) (element : Option Element) (details : Option Json)
    (w : World) : World :=
  let interaction := newInteraction type element details w
  let w1 := w.tick
  saveAnalyticsToCookie
    { w1 with
      analytics := { w1.analytics with interactions := w1.analytics.interactions ++ [interaction] } }

/-- The function `trackThemeChange(fromTheme, toTheme)`. -/
def trackThemeChange (fromTheme toTheme : Str) (w : World) : World :=
  let themeChange : ThemeChange :=
    { timestamp := w.now, fromTheme := fromTheme, toTheme := toTheme, page := w.pathname }
  let w1 := w.tick
  saveAnalyticsToCookie
    { w1 with
      analytics := { w1.analytics with themeChanges := w1.analytics.themeChanges ++ [themeChange] } }

/-- The assignment `currentPageView.timeOnPage = value` on the last record. -/
def setLastTimeOnPage (value : Int) : List PageView → List PageView
  | [] => []
  | [p] => [{ p with timeOnPage := value }]
  | p :: q :: rest => p :: setLastTimeOnPage value (q :: rest)

/-- The function `trackTimeOnPage()`. -/
def trackTimeOnPage (w : World) : World :=
  match w.analytics.pageViews with
  | [] => w
  | _ :: _ =>
    let elapsed : Int := (w.now : Int) - (w.analytics.startTime : Int)
    let w1 := w.tick
    saveAnalyticsToCookie
      { w1 with
        analytics :=
          { w1.analytics with pageViews := setLastTimeOnPage elapsed w1.analytics.pageViews } }

/-- What `getAnalyticsData()` returns. -/
structure AnalyticsResult where
  data : Json
  interactions : Json
  themeChanges : Json

/-- The result of the `catch` branch: `null` and two empty arrays. -/
def emptyResult : AnalyticsResult := ⟨.null, .arr [], .arr []⟩

/-- The expression `text ? JSON.parse(text) : fallback` on what `getCookie`
returned; `none` is the exception `JSON.parse` throws. An absent cookie and an
empty string are both falsy. -/
def parseOr (parse : Str → Option Json) (fallback : Json) : Option Str → Option Json
  | none => some fallback
  | some [] => some fallback
  | some (c :: cs) => parse (c :: cs)

/-- The function `getAnalyticsData()`, with `parse` for `JSON.parse`: the three
cookies are read, then parsed inside one `try`; any exception gives the empty
result. -/
def getAnalyticsDataWith (parse : Str → Option Json) (w : World) : AnalyticsResult :=
  let data := getCookie (documentCookie w.cookies) "analytics_data".toList
  let interactions := getCookie (documentCookie w.cookies) "analytics_interactions".toList
  let themeChanges := getCookie (documentCookie w.cookies) "analytics_theme_changes".toList
  match parseOr parse .null data, parseOr parse (.arr []) interactions,
    parseOr parse (.arr []) themeChanges with
  | some d, some i, some t => ⟨d, i, t⟩
  | _, _, _ => emptyResult

/-- The function `getAnalyticsData()`. -/
def getAnalyticsData (w : World) : AnalyticsResult := getAnalyticsDataWith jsonParse w

/-! ## Theme management -/

/-- The theme `dark`. -/
def dark : Str := "dark".toList

/-- The theme `light`. -/
def light : Str := "light".toList

/-- The body class of a theme: `theme-` and its name. -/
def themeClass (theme : Str) : Str := "theme-".toList ++ theme

/-- The method `classList.remove(a, b)`. -/
def classListRemove (a b : Str) (classes : List Str) : List Str :=
  classes.filter (fun c => c != a && c != b)

/-- The method `classList.add(a)`: a token set takes a class once. -/
def classListAdd (a : Str) (classes : List Str) : List Str :=
  if a ∈ classes then classes else classes ++ [a]

/-- The method `style.setProperty(name, value)`. -/
def setProperty (name value : Str) : List (Str × Str) → List (Str × Str)
  | [] => [(name, value)]
  | p :: rest => if p.1 = name then (name, value) :: rest else p :: setProperty name value rest

/-- The four custom properties `setTheme` writes for a theme. -/
def themeProperties (theme : Str) : List (Str × Str) :=
  if theme = light then
    [("--bg-primary".toList, "#ffffff".toList), ("--bg-secondary".toList, "#f5f5f5".toList),
      ("--text-primary".toList, "#000000".toList), ("--text-secondary".toList, "#333333".toList)]
  else
    [("--bg-primary".toList, "#000000".toList), ("--bg-secondary".toList, "#1a1a1a".toList),
      ("--text-primary".toList, "#ffffff".toList), ("--text-secondary".toList, "#e0e0e0".toList)]

/-- Write a list of custom properties, in order. -/
def setProperties (props : List (Str × Str)) (style : List (Str × Str)) : List (Str × Str) :=
  props.foldl (fun s p => setProperty p.1 p.2 s) style

/-- The icon of the toggle button for the current theme. -/
def toggleIcon (theme : Str) : Str := if theme = dark then "☀️".toList else "🌙".toList

/-- The method `ThemeManager.updateThemeToggle()`. -/
def ThemeManager.updateThemeToggle (w : World) : World :=
  match w.toggle with
  | none => w
  | some t =>
    { w with
      toggle := some
        { t with
          innerHTML := toggleIcon w.currentTheme
          ariaLabel := "Switch to ".toList ++ (if w.currentTheme = dark then light else dark)
            ++ " mode".toList } }

/-- The method `ThemeManager.setTheme(theme, track)`. -/
def ThemeManager.setTheme (theme : Str) (track : Bool) (w : World) : World :=
  if theme ≠ dark ∧ theme ≠ light then w
  else
    let previousTheme := w.currentTheme
    let w1 : World :=
      { w with
        currentTheme := theme
        dataTheme := some theme
        bodyClasses :=
          classListAdd (themeClass theme) (classListRemove (themeClass dark) (themeClass light)
            w.bodyClasses)
        style := setProperties (themeProperties theme) w.style }
    let w2 := setCookie "theme_preference".toList theme w1
    let w3 := if track ∧ previousTheme ≠ theme then trackThemeChange previousTheme theme w2 else w2
    ThemeManager.updateThemeToggle w3

/-- The method `ThemeManager.createThemeToggle()`. -/
def ThemeManager.createThemeToggle (w : World) : World :=
  match w.toggle with
  | some _ => w
  | none =>
    ThemeManager.updateThemeToggle
      { w with
        toggle := some
          { className := "theme-toggle-btn".toList
            ariaLabel := "Toggle theme".toList
            innerHTML := toggleIcon w.currentTheme
            inNav := w.hasNavContainer } }

/-- The method `ThemeManager.init()`. -/
def ThemeManager.init (w : World) : World :=
  let savedTheme := getCookie (documentCookie w.cookies) "theme_preference".toList
  let w1 :=
    if savedTheme = some light ∨ savedTheme = some dark then
      ThemeManager.setTheme (savedTheme.getD []) false w
    else ThemeManager.setTheme (if w.prefersDark then dark else light) false w
  let w2 := ThemeManager.createThemeToggle w1
  trackThemeChange "system".toList w2.currentTheme w2

/-- The details of the click `toggleTheme` records. -/
def toggleDetails (newTheme : Str) : Json :=
  .obj [("action".toList, .str "theme_toggle".toList), ("theme".toList, .str newTheme)]

/-- The method `ThemeManager.toggleTheme()`. -/
def ThemeManager.toggleTheme (w : World) : World :=
  let newTheme := if w.currentTheme = dark then light else dark
  trackInteraction "click".toList none (some (toggleDetails newTheme))
    (ThemeManager.setTheme newTheme true w)

/-! ## The scroll listener -/

/-- A scroll event: the values the listener reads. The scroll position
`window.scrollY` is a double, given by its exact value
`scrollYNum / scrollYDen` (`scrollYDen` positive); the two heights are
integers (attributes of type `long`), and so is their difference, which a
double holds exactly. -/
structure ScrollEvent where
  scrollYNum : Int
  scrollYDen : Nat
  scrollHeight : Int
  innerHeight : Int

/-! ### Double-precision arithmetic -/

/-- A JavaScript number as the arithmetic of the scroll listener produces it:
the finite value `mant * 2 ^ exp`, an infinity or `NaN`. The sign of a zero is
not kept: the listener rounds, compares and prints both zeros alike. -/
inductive Double where
  | finite (mant : Int) (exp : Int)
  | infinity
  | negInfinity
  | nan
  deriving DecidableEq

/-- The loop of `log2`, with `fuel` bounding the number of halvings. -/
def log2Loop : Nat → Nat → Nat
  | 0, _ => 0
  | fuel + 1, n => if n < 2 then 0 else log2Loop fuel (n / 2) + 1

/-- The position of the highest bit of a positive number: the floor of its
binary logarithm. -/
def log2 (n : Nat) : Nat := log2Loop n n

/-- The floor of the binary logarithm of the quotient `a / b` of two positive
numbers. -/
def floorLog2 (a b : Nat) : Int :=
  if a * 2 ^ ((log2 b : Int) - (log2 a : Int)).toNat <
      b * 2 ^ ((log2 a : Int) - (log2 b : Int)).toNat then
    (log2 a : Int) - (log2 b : Int) - 1
  else (log2 a : Int) - (log2 b : Int)

/-- The integer nearest to the quotient `a / b`, a tie going to the even
one. -/
def roundHalfEven (a b : Nat) : Nat :=
  if 2 * (a % b) < b then a / b
  else if b < 2 * (a % b) then a / b + 1
  else if (a / b) % 2 = 0 then a / b
  else a / b + 1

/-- The exponent of the last place of the doubles around the quotient `a / b`:
53 significant bits, and no exponent below that of the subnormal numbers. -/
def lastPlace (a b : Nat) : Int := max (floorLog2 a b - 52) (-1074)

/-- The double nearest to the positive quotient `a / b` (IEEE 754, round to
nearest, ties to even), as mantissa and exponent; `none` when the result
overflows to infinity, which is when it reaches `2 ^ 1024`. -/
def roundPositive (a b : Nat) : Option (Nat × Int) :=
  if 971 < lastPlace a b ∨
      (lastPlace a b = 971 ∧
        2 ^ 53 ≤ roundHalfEven (a * 2 ^ (-lastPlace a b).toNat)
          (b * 2 ^ (lastPlace a b).toNat)) then none
  else
    some (roundHalfEven (a * 2 ^ (-lastPlace a b).toNat) (b * 2 ^ (lastPlace a b).toNat),
      lastPlace a b)

/-- The double nearest to the quotient `num / den`, `den` positive: the result
of a correctly rounded operation whose exact value is that quotient. -/
def roundToDouble (num : Int) (den : Nat) : Double :=
  if num = 0 then .finite 0 0
  else
    match roundPositive num.natAbs den with
    | none => if 0 < num then .infinity else .negInfinity
    | some (m, u) => .finite (if 0 < num then (m : Int) else -(m : Int)) u

/-- The division `scrollY / range` of the double `num / den` by an integer. A
zero divided by zero is `NaN`; another number divided by zero is an infinity of
its sign. -/
def divideByRange (num : Int) (den : Nat) (range : Int) : Double :=
  if range = 0 then
    (if num = 0 then .nan else if 0 < num then .infinity else .negInfinity)
  else if 0 < range then roundToDouble num (den * range.natAbs)
  else roundToDouble (-num) (den * range.natAbs)

/-- The multiplication `x * 100`. -/
def times100 : Double → Double
  | .finite m e => roundToDouble (m * 100 * 2 ^ e.toNat) (2 ^ (-e).toNat)
  | .infinity => .infinity
  | .negInfinity => .negInfinity
  | .nan => .nan

/-- The floor of the quotient `num / den` plus one half, `den` positive. -/
def roundQuotient (num den : Int) : Int := Int.fdiv (2 * num + den) (2 * den)

/-- The function `Math.round`: the nearest integer, a tie going up. -/
def mathRound : Double → Percent
  | .finite m e => .finite (roundQuotient (m * 2 ^ e.toNat) (2 ^ (-e).toNat))
  | .infinity => .infinity
  | .negInfinity => .negInfinity
  | .nan => .nan

/-- The expression
`Math.round((scrollY / (scrollHeight - innerHeight)) * 100)`: the division and
the multiplication each round to the nearest double, and `Math.round` rounds
that to an integer. -/
def scrollPercent (e : ScrollEvent) : Percent :=
  mathRound
    (times100 (divideByRange e.scrollYNum e.scrollYDen (e.scrollHeight - e.innerHeight)))

/-- The comparison `a > b` of two such numbers. -/
def Percent.gt : Percent → Percent → Bool
  | .nan, _ => false
  | _, .nan => false
  | .finite a, .finite b => decide (a > b)
  | .finite _, .infinity => false
  | .finite _, .negInfinity => true
  | .infinity, .infinity => false
  | .infinity, _ => true
  | .negInfinity, _ => false

/-- The test `scrollPercent % 25 === 0`; the remainder of an infinity is
`NaN`. -/
def Percent.isMultipleOf25 : Percent → Bool
  | .finite n => decide (n % 25 = 0)
  | _ => false

/-- The decimal with `k` digits that rounds to the integer `v`, a number of
`digits` digits, when there is one: the nearer of the two candidates around
`v`, the even one at a tie. -/
def shortestWith (v : Nat) (digits : Nat) (k : Nat) : Option Nat :=
  let scale := 10 ^ (digits - k)
  let lo := v / scale
  let hi := lo + 1
  let isV (s : Nat) : Bool :=
    decide (10 ^ (k - 1) ≤ s ∧ s < 10 ^ k) &&
      (match roundToDouble (s * scale : Nat) 1 with
        | .finite m u => decide (m * 2 ^ u.toNat = (v : Int) * 2 ^ (-u).toNat)
        | _ => false)
  match isV lo, isV hi with
  | true, false => some lo
  | false, true => some hi
  | true, true =>
    if v - lo * scale < hi * scale - v then some lo
    else if hi * scale - v < v - lo * scale then some hi
    else if lo % 2 = 0 then some lo else some hi
  | false, false => none

/-- The shortest decimal that rounds to `v`: the first length in the list that
has one, with that length. -/
def shortestDigits (v : Nat) (digits : Nat) : List Nat → Option (Nat × Nat)
  | [] => none
  | k :: ks =>
    match shortestWith v digits k with
    | some s => some (s, k)
    | none => shortestDigits v digits ks

/-- The text of a double that is an integer of at least `10 ^ 21`: its shortest
digits, a point after the first, and the exponent. -/
def exponentForm (v : Nat) : Str :=
  match shortestDigits v (decimal v).length (List.range' 1 17) with
  | none => decimal v
  | some (s, _) =>
    match decimal s with
    | [] => []
    | [d] => d :: 'e' :: '+' :: decimal ((decimal v).length - 1)
    | d :: ds => d :: '.' :: ds ++ 'e' :: '+' :: decimal ((decimal v).length - 1)

/-- The text `JSON.stringify` writes for a double that is a non-negative
integer: all its digits below `10 ^ 21`, the exponent form from there on. -/
def natToString (v : Nat) : Str := if v < 10 ^ 21 then decimal v else exponentForm v

/-- The text `JSON.stringify` writes for a double that is an integer. -/
def numberToString (n : Int) : Str :=
  if n < 0 then '-' :: natToString (-n).toNat else natToString n.toNat

/-- The details of the scroll interaction: the depth. A depth that is not
finite serializes as `null`. -/
def scrollDetails : Percent → Json
  | .finite n => .obj [("depth".toList, .num (numberToString n))]
  | _ => .obj [("depth".toList, .null)]

/-- The function `setupAnalyticsListeners()`, as far as the scroll listener
goes: it sets the highest percentage seen to zero. -/
def setupAnalyticsListeners (w : World) : World := { w with maxScroll := .finite 0 }

/-- The scroll listener. -/
def scrollListener (e : ScrollEvent) (w : World) : World :=
  let percent := scrollPercent e
  if percent.gt w.maxScroll then
    let w1 := { w with maxScroll := percent }
    if percent.isMultipleOf25 then
      trackInteraction "scroll".toList none (some (scrollDetails percent)) w1
    else w1
  else w

/-- A sequence of scroll events, handled in turn. -/
def scrollAll : List ScrollEvent → World → World
  | [], w => w
  | e :: es, w => scrollAll es (scrollListener e w)

/-! ## Initialisation -/

/-- The callback of the 30-second timer and of the `beforeunload` listener:
`trackTimeOnPage()` and then `saveAnalyticsToCookie()`. -/
def saveWithTimeOnPage (w : World) : World := saveAnalyticsToCookie (trackTimeOnPage w)

/-- The function `init()` of the script: the theme, the first page view, the
listeners. The timer and the listeners other than the scroll listener are
callbacks for later events and leave the state as it is. -/
def init (w : World) : World := setupAnalyticsListeners (trackPageView (ThemeManager.init w))

/-! ## Notions used by the properties -/

/-- A name the script uses for a cookie: not empty, without `=`, semicolon or
white space at either end. -/
def CleanName (name : Str) : Prop :=
  name ≠ [] ∧ '=' ∉ name ∧ ';' ∉ name ∧ trim name = name

instance (name : Str) : Decidable (CleanName name) := by
  unfold CleanName
  infer_instance

/-- The other of the two themes. -/
def otherTheme (theme : Str) : Str := if theme = dark then light else dark

/-- A page just loaded, before the script has run: no cookie, no class, the
clock at `1000 + 7 * reading`, the log empty. -/
def freshWorld : World :=
  { cookies := []
    clock := fun i => 1000 + 7 * i
    ticks := 0
    href := "https://example.org/".toList
    pathname := "/".toList
    title := "Home".toList
    referrer := []
    prefersDark := true
    dataTheme := none
    bodyClasses := ["page".toList]
    style := []
    toggle := none
    hasNavContainer := true
    console := []
    flushFault := none
    analytics :=
      { sessionId := "session_1000_abc".toList
        userId := "user_1000_xyz".toList
        startTime := 1000
        pageViews := []
        interactions := []
        themeChanges := []
        deviceInfo := .obj [("platform".toList, .str "Linux".toList)]
        browserInfo := .obj [("browser".toList, .str "Firefox".toList)]
        screenInfo := .obj [("width".toList, Json.ofNat 1280)]
        timezone := "UTC".toList
        language := "en".toList
        referrer := "direct".toList
        currentPage := "/".toList
        userAgent := "Mozilla/5.0".toList }
    currentTheme := dark
    maxScroll := .finite 0 }

/-- The theme `init` resolves: the stored `theme_preference` when it is `dark`
or `light`, the system preference otherwise. -/
def resolvedTheme (w : World) : Str :=
  match getCookie (documentCookie w.cookies) "theme_preference".toList with
  | some s => if s = dark ∨ s = light then s else if w.prefersDark then dark else light
  | none => if w.prefersDark then dark else light

/-- A page loaded with the cookie `theme_preference=light` stored, on a system
that prefers dark. -/
def lightCookieWorld : World :=
  { freshWorld with cookies := [⟨"theme_preference".toList, light⟩] }

/-- A page with one page view recorded: the fresh page after `trackPageView`. -/
def viewedWorld : World := trackPageView freshWorld

/-- A page whose `analytics_interactions` cookie was cut short, next to a sound
`analytics_data` cookie. -/
def brokenCookieWorld : World :=
  { freshWorld with
    cookies := [⟨"analytics_data".toList, ['{', '}']⟩,
      ⟨"analytics_interactions".toList, ['[', '{']⟩] }

/-- The scroll position of an event lies in the scrollable range of the
document, which is not empty. -/
def ScrollEvent.InRange (e : ScrollEvent) : Prop :=
  0 < e.scrollHeight - e.innerHeight ∧ 0 < e.scrollYDen ∧ 0 ≤ e.scrollYNum ∧
    e.scrollYNum ≤ (e.scrollYDen : Int) * (e.scrollHeight - e.innerHeight)

instance (e : ScrollEvent) : Decidable e.InRange := by
  unfold ScrollEvent.InRange
  infer_instance

/-- The rounded scroll percentage of an event, as the listener computes it,
when it is finite. -/
def ScrollEvent.percent (e : ScrollEvent) : Int :=
  match scrollPercent e with
  | .finite n => n
  | _ => 0

/-- The depths logged for a sequence of rounded percentages, in the words of
the specification: a percentage is logged when it is a new highest value,
above every value in `seen`, and a multiple of 25. -/
def specLoggedDepths (seen : List Int) : List Int → List Int
  | [] => []
  | p :: ps =>
    (if (∀ q ∈ seen, q < p) ∧ p % 25 = 0 then [p] else []) ++ specLoggedDepths (seen ++ [p]) ps

/-- Four scroll events on a page 302 pixels taller than its window: positions
30, 73.99 (the double nearest to it), 75.5 and 302. At 73.99 the quotient
rounds to the double 0.245 and the product to 24.5, which `Math.round` takes
to 25. -/
def sampleScrolls : List ScrollEvent :=
  [⟨30, 1, 1102, 800⟩, ⟨5206583381705359, 70368744177664, 1102, 800⟩, ⟨151, 2, 1102, 800⟩,
    ⟨302, 1, 1102, 800⟩]

/-- The three cookie writes of a flush, in order: name and text. -/
def flushWrites (w : World) : List (Str × Str) :=
  [("analytics_data".toList, (dataToStore w.analytics w.now).stringify),
    ("analytics_interactions".toList, interactionsText w.analytics),
    ("analytics_theme_changes".toList, themeChangesText w.analytics)]

/-- The number of cookie writes of a flush that are done when a call throws. -/
def completedWrites : FlushStep → Nat
  | .serializeData => 0
  | .writeData => 0
  | .serializeInteractions => 1
  | .writeInteractions => 1
  | .serializeThemeChanges => 2
  | .writeThemeChanges => 2

/-- The store after a list of writes. -/
def writeAll (writes : List (Str × Str)) (jar : List Cookie) : List Cookie :=
  writes.foldl (fun j nv => assignCookie (nv.1 ++ '=' :: nv.2) false j) jar

/-- A fresh page on which the serialization of the interaction list throws. -/
def faultyWorld : World := { freshWorld with flushFault := some .serializeInteractions }

/-- The line the `catch` branch of the flush puts on the console. -/
def saveErrorLine : Str := "Analytics save error:".toList

/-- A text is one JSON numeral. -/
def IsNumeral (s : Str) : Prop := scanNumber s = some (s, [])

instance (s : Str) : Decidable (IsNumeral s) := by
  unfold IsNumeral
  infer_instance

mutual
/-- Every number of a JSON value is kept as a numeral of the JSON grammar. -/
def Json.Valid : Json → Prop
  | .null => True
  | .bool _ => True
  | .num numeral => IsNumeral numeral
  | .str _ => True
  | .arr items => validItems items
  | .obj members => validMembers members
/-- Every element is valid. -/
def validItems : List Json → Prop
  | [] => True
  | v :: rest => v.Valid ∧ validItems rest
/-- Every member has a valid value. -/
def validMembers : List (Str × Json) → Prop
  | [] => True
  | (_, v) :: rest => v.Valid ∧ validMembers rest
end

mutual
/-- A bound on the depth of calls the parser needs for a value. -/
def Json.size : Json → Nat
  | .null => 1
  | .bool _ => 1
  | .num _ => 1
  | .str _ => 1
  | .arr items => 1 + sizeItems items
  | .obj members => 1 + sizeMembers members
/-- The bound for the elements of an array. -/
def sizeItems : List Json → Nat
  | [] => 0
  | v :: rest => 1 + v.size + sizeItems rest
/-- The bound for the members of an object. -/
def sizeMembers : List (Str × Json) → Nat
  | [] => 0
  | (_, v) :: rest => 1 + v.size + sizeMembers rest
end

/-- What may follow a value in a JSON text: the end, a comma, or a closing
bracket or brace. -/
def Terminated (rest : Str) : Prop :=
  rest = [] ∨ ∃ c r, rest = c :: r ∧ (c = ',' ∨ c = ']' ∨ c = '}')

/-- The text after a numeral does not continue it. -/
def NumStop (rest : Str) : Prop :=
  ∀ c r, rest = c :: r → c.isDigit = false ∧ c ≠ '.' ∧ c ≠ 'e' ∧ c ≠ 'E'

/-- The arguments of one call of `trackInteraction`. -/
structure InteractionCall where
  type : Str
  element : Option Element
  details : Option Json

/-- A sequence of calls of `trackInteraction`, made in turn. -/
def trackInteractions (calls : List InteractionCall) (w : World) : World :=
  calls.foldl (fun s c => trackInteraction c.type c.element c.details s) w

/-- A page loaded again, with the cookies an earlier visit left (one click
recorded there) and its own log still empty. -/
def revisitedWorld : World :=
  { freshWorld with cookies := (trackInteraction "click".toList none none freshWorld).cookies }

/-! ## Lemmas on the cookie helpers -/

theorem startsWith_append (p rest : Str) : startsWith p (p ++ rest) = true := by
  induction p with
  | nil => cases rest <;> rfl
  | cons a p ih => simp [startsWith, ih]

theorem startsWith_iff (p c : Str) : startsWith p c = true ↔ ∃ rest, c = p ++ rest := by
  induction p generalizing c with
  | nil => cases c <;> simp [startsWith]
  | cons a p ih =>
    cases c with
    | nil => simp [startsWith]
    | cons b c =>
      simp only [startsWith, List.cons_append, List.cons.injEq]
      by_cases hab : a = b
      · subst hab
        simp [ih]
      · simp only [hab, if_false, Bool.false_eq_true, false_iff, not_exists, not_and]
        exact fun _ h => absurd h.symm hab

theorem takeWhile_ne_append (k v : Str) (hk : '=' ∉ k) :
    (k ++ '=' :: v).takeWhile (fun c => c != '=') = k := by
  induction k with
  | nil => simp
  | cons a k ih =>
    simp only [List.mem_cons, not_or] at hk
    have ha : (a != '=') = true := by
      simp only [bne_iff_ne, ne_eq]
      exact fun h => hk.1 h.symm
    simp [List.takeWhile, ha, ih hk.2]

theorem dropWhile_ne_append (k v : Str) (hk : '=' ∉ k) :
    (k ++ '=' :: v).dropWhile (fun c => c != '=') = '=' :: v := by
  induction k with
  | nil => simp
  | cons a k ih =>
    simp only [List.mem_cons, not_or] at hk
    have ha : (a != '=') = true := by
      simp only [bne_iff_ne, ne_eq]
      exact fun h => hk.1 h.symm
    simp [List.dropWhile, ha, ih hk.2]

theorem takeWhile_dropWhile_of_mem (seg : Str) (h : '=' ∈ seg) :
    seg = seg.takeWhile (fun c => c != '=') ++ '=' :: segmentValue seg := by
  induction seg with
  | nil => simp at h
  | cons a seg ih =>
    by_cases ha : a = '='
    · subst ha
      simp [segmentValue]
    · have hb : (a != '=') = true := by simpa using ha
      have hmem : '=' ∈ seg := by
        rcases List.mem_cons.mp h with h | h
        · exact absurd h.symm ha
        · exact h
      have := ih hmem
      simp only [segmentValue] at this ⊢
      simp only [List.takeWhile, hb, List.dropWhile, List.cons_append, List.cons.injEq, true_and]
      exact this

/-- For a name without `=`, a segment begins with `name=` exactly when its key
is `name`. -/
theorem startsWith_nameEQ_iff (name seg : Str) (hname : '=' ∉ name) :
    startsWith (name ++ ['=']) seg = true ↔ segmentKey seg = some name := by
  rw [startsWith_iff]
  constructor
  · rintro ⟨rest, rfl⟩
    have hmem : '=' ∈ name ++ ['='] ++ rest := by simp
    simp only [segmentKey, hmem, if_true, Option.some.injEq]
    simpa using takeWhile_ne_append name rest hname
  · intro h
    unfold segmentKey at h
    split at h
    · rename_i hmem
      simp only [Option.some.injEq] at h
      refine ⟨segmentValue seg, ?_⟩
      have := takeWhile_dropWhile_of_mem seg hmem
      rw [h] at this
      simpa using this
    · simp at h

theorem drop_nameEQ (name seg : Str) (hname : '=' ∉ name)
    (h : segmentKey seg = some name) :
    seg.drop (name ++ ['=']).length = segmentValue seg := by
  obtain ⟨rest, rfl⟩ := (startsWith_iff _ _).mp ((startsWith_nameEQ_iff name seg hname).mpr h)
  have h1 : (name ++ ['='] ++ rest).drop (name ++ ['=']).length = rest := by
    simp
  rw [h1]
  have h2 : name ++ ['='] ++ rest = name ++ '=' :: rest := by simp
  rw [h2, segmentValue, dropWhile_ne_append name rest hname]
  rfl

theorem getCookieLoop_eq_find (name : Str) (hname : '=' ∉ name) (segs : List Str) :
    getCookieLoop (name ++ ['=']) segs =
      ((segs.map stripLeadingSpaces).find?
        (fun seg => decide (segmentKey seg = some name))).map segmentValue := by
  induction segs with
  | nil => rfl
  | cons seg rest ih =>
    simp only [getCookieLoop, List.map_cons, List.find?_cons]
    by_cases h : segmentKey (stripLeadingSpaces seg) = some name
    · have hs := (startsWith_nameEQ_iff name _ hname).mpr h
      simp only [hs, if_true, h, decide_True, Option.map_some']
      rw [drop_nameEQ name _ hname h]
    · have hs : startsWith (name ++ ['=']) (stripLeadingSpaces seg) = false := by
        cases hb : startsWith (name ++ ['=']) (stripLeadingSpaces seg) with
        | false => rfl
        | true => exact absurd ((startsWith_nameEQ_iff name _ hname).mp hb) h
      simp only [hs, h, decide_False]
      simpa using ih

/-! ## Properties -/

/-- C5, as stated, fails for a name that contains `=`: on the cookie string
`a=b=c` the lookup of the name `a=b` returns `c`, although the only segment
has the key `a` (and the value `b=c`), so no segment has the key `a=b`. -/
theorem getCookie_name_with_eq_counterexample :
    getCookie "a=b=c".toList "a=b".toList = some "c".toList ∧
    cookieSegments "a=b=c".toList = ["a=b=c".toList] ∧
    segmentKey "a=b=c".toList = some "a".toList ∧
    getCookieSpec "a=b=c".toList "a=b".toList = none := by
  decide

/-- C5 (amended): for every cookie string and every name without `=`,
`getCookie` returns the value (the text after the first `=`) of the first
segment, split on `;` and stripped of leading spaces, whose key is exactly the
name, and it returns `null` if and only if no segment has that key. -/
theorem getCookie_spec (cookie name : Str) (hname : '=' ∉ name) :
    getCookie cookie name = getCookieSpec cookie name ∧
    (getCookie cookie name = none ↔
      ∀ seg ∈ cookieSegments cookie, segmentKey seg ≠ some name) := by
  have h := getCookieLoop_eq_find name hname (split ';' cookie)
  refine ⟨h, ?_⟩
  unfold getCookie
  rw [h]
  simp [cookieSegments]

theorem getCookie_spec_witness :
    '=' ∉ "theme_preference".toList ∧
    getCookie "a=1; theme_preference=light".toList "theme_preference".toList =
      getCookieSpec "a=1; theme_preference=light".toList "theme_preference".toList ∧
    (getCookie "a=1; theme_preference=light".toList "theme_preference".toList = none ↔
      ∀ seg ∈ cookieSegments "a=1; theme_preference=light".toList,
        segmentKey seg ≠ some "theme_preference".toList) :=
  ⟨by decide, getCookie_spec _ _ (by decide)⟩

/-! ## Frame lemmas: what the cookie writes and the flush leave unchanged -/

@[simp] theorem tick_clock (w : World) : w.tick.clock = w.clock := rfl

@[simp] theorem failedWrite_clock (w : World) : (failedWrite w).clock = w.clock := rfl

@[simp] theorem tick_pathname (w : World) : w.tick.pathname = w.pathname := rfl

@[simp] theorem failedWrite_pathname (w : World) : (failedWrite w).pathname = w.pathname := rfl

@[simp] theorem tick_dataTheme (w : World) : w.tick.dataTheme = w.dataTheme := rfl

@[simp] theorem failedWrite_dataTheme (w : World) : (failedWrite w).dataTheme = w.dataTheme := rfl

@[simp] theorem tick_bodyClasses (w : World) : w.tick.bodyClasses = w.bodyClasses := rfl

@[simp] theorem failedWrite_bodyClasses (w : World) : (failedWrite w).bodyClasses = w.bodyClasses := rfl

@[simp] theorem tick_style (w : World) : w.tick.style = w.style := rfl

@[simp] theorem failedWrite_style (w : World) : (failedWrite w).style = w.style := rfl

@[simp] theorem tick_toggle (w : World) : w.tick.toggle = w.toggle := rfl

@[simp] theorem failedWrite_toggle (w : World) : (failedWrite w).toggle = w.toggle := rfl

@[simp] theorem tick_flushFault (w : World) : w.tick.flushFault = w.flushFault := rfl

@[simp] theorem failedWrite_flushFault (w : World) : (failedWrite w).flushFault = w.flushFault := rfl

@[simp] theorem tick_analytics (w : World) : w.tick.analytics = w.analytics := rfl

@[simp] theorem failedWrite_analytics (w : World) : (failedWrite w).analytics = w.analytics := rfl

@[simp] theorem tick_currentTheme (w : World) : w.tick.currentTheme = w.currentTheme := rfl

@[simp] theorem failedWrite_currentTheme (w : World) : (failedWrite w).currentTheme = w.currentTheme := rfl

@[simp] theorem tick_maxScroll (w : World) : w.tick.maxScroll = w.maxScroll := rfl

@[simp] theorem failedWrite_maxScroll (w : World) : (failedWrite w).maxScroll = w.maxScroll := rfl

@[simp] theorem tick_cookies (w : World) : w.tick.cookies = w.cookies := rfl

@[simp] theorem failedWrite_cookies (w : World) : (failedWrite w).cookies = w.cookies := rfl

@[simp] theorem tick_console (w : World) : w.tick.console = w.console := rfl

@[simp] theorem failedWrite_console (w : World) : (failedWrite w).console = w.console := rfl

@[simp] theorem setCookie_clock (name value : Str) (w : World) :
    (setCookie name value w).clock = w.clock := rfl

@[simp] theorem setCookie_pathname (name value : Str) (w : World) :
    (setCookie name value w).pathname = w.pathname := rfl

@[simp] theorem setCookie_dataTheme (name value : Str) (w : World) :
    (setCookie name value w).dataTheme = w.dataTheme := rfl

@[simp] theorem setCookie_bodyClasses (name value : Str) (w : World) :
    (setCookie name value w).bodyClasses = w.bodyClasses := rfl

@[simp] theorem setCookie_style (name value : Str) (w : World) :
    (setCookie name value w).style = w.style := rfl

@[simp] theorem setCookie_toggle (name value : Str) (w : World) :
    (setCookie name value w).toggle = w.toggle := rfl

@[simp] theorem setCookie_flushFault (name value : Str) (w : World) :
    (setCookie name value w).flushFault = w.flushFault := rfl

@[simp] theorem setCookie_analytics (name value : Str) (w : World) :
    (setCookie name value w).analytics = w.analytics := rfl

@[simp] theorem setCookie_currentTheme (name value : Str) (w : World) :
    (setCookie name value w).currentTheme = w.currentTheme := rfl

@[simp] theorem setCookie_maxScroll (name value : Str) (w : World) :
    (setCookie name value w).maxScroll = w.maxScroll := rfl

@[simp] theorem setCookie_console (name value : Str) (w : World) :
    (setCookie name value w).console = w.console := rfl

@[simp] theorem tick_ticks (w : World) : w.tick.ticks = w.ticks + 1 := rfl

@[simp] theorem failedWrite_ticks (w : World) : (failedWrite w).ticks = w.ticks + 1 := rfl

@[simp] theorem setCookie_ticks (name value : Str) (w : World) :
    (setCookie name value w).ticks = w.ticks + 1 := rfl

@[simp] theorem setCookie_cookies (name value : Str) (w : World) :
    (setCookie name value w).cookies = assignCookie (name ++ '=' :: value) false w.cookies := rfl


@[simp] theorem flushBody_clock (w : World) : (flushBody w).1.clock = w.clock := by
  unfold flushBody
  split_ifs <;> simp only [setCookie_clock, tick_clock, failedWrite_clock]

@[simp] theorem flushBody_pathname (w : World) : (flushBody w).1.pathname = w.pathname := by
  unfold flushBody
  split_ifs <;> simp only [setCookie_pathname, tick_pathname, failedWrite_pathname]

@[simp] theorem flushBody_dataTheme (w : World) : (flushBody w).1.dataTheme = w.dataTheme := by
  unfold flushBody
  split_ifs <;> simp only [setCookie_dataTheme, tick_dataTheme, failedWrite_dataTheme]

@[simp] theorem flushBody_bodyClasses (w : World) : (flushBody w).1.bodyClasses = w.bodyClasses := by
  unfold flushBody
  split_ifs <;> simp only [setCookie_bodyClasses, tick_bodyClasses, failedWrite_bodyClasses]

@[simp] theorem flushBody_style (w : World) : (flushBody w).1.style = w.style := by
  unfold flushBody
  split_ifs <;> simp only [setCookie_style, tick_style, failedWrite_style]

@[simp] theorem flushBody_toggle (w : World) : (flushBody w).1.toggle = w.toggle := by
  unfold flushBody
  split_ifs <;> simp only [setCookie_toggle, tick_toggle, failedWrite_toggle]

@[simp] theorem flushBody_flushFault (w : World) : (flushBody w).1.flushFault = w.flushFault := by
  unfold flushBody
  split_ifs <;> simp only [setCookie_flushFault, tick_flushFault, failedWrite_flushFault]

@[simp] theorem flushBody_analytics (w : World) : (flushBody w).1.analytics = w.analytics := by
  unfold flushBody
  split_ifs <;> simp only [setCookie_analytics, tick_analytics, failedWrite_analytics]

@[simp] theorem flushBody_currentTheme (w : World) : (flushBody w).1.currentTheme = w.currentTheme := by
  unfold flushBody
  split_ifs <;> simp only [setCookie_currentTheme, tick_currentTheme, failedWrite_currentTheme]

@[simp] theorem flushBody_maxScroll (w : World) : (flushBody w).1.maxScroll = w.maxScroll := by
  unfold flushBody
  split_ifs <;> simp only [setCookie_maxScroll, tick_maxScroll, failedWrite_maxScroll]

@[simp] theorem flushBody_console (w : World) : (flushBody w).1.console = w.console := by
  unfold flushBody
  split_ifs <;> simp only [setCookie_console, tick_console, failedWrite_console]

@[simp] theorem saveAnalyticsToCookie_clock (w : World) :
    (saveAnalyticsToCookie w).clock = w.clock := by
  unfold saveAnalyticsToCookie
  split_ifs <;> simp only [flushBody_clock]

@[simp] theorem saveAnalyticsToCookie_pathname (w : World) :
    (saveAnalyticsToCookie w).pathname = w.pathname := by
  unfold saveAnalyticsToCookie
  split_ifs <;> simp only [flushBody_pathname]

@[simp] theorem saveAnalyticsToCookie_dataTheme (w : World) :
    (saveAnalyticsToCookie w).dataTheme = w.dataTheme := by
  unfold saveAnalyticsToCookie
  split_ifs <;> simp only [flushBody_dataTheme]

@[simp] theorem saveAnalyticsToCookie_bodyClasses (w : World) :
    (saveAnalyticsToCookie w).bodyClasses = w.bodyClasses := by
  unfold saveAnalyticsToCookie
  split_ifs <;> simp only [flushBody_bodyClasses]

@[simp] theorem saveAnalyticsToCookie_style (w : World) :
    (saveAnalyticsToCookie w).style = w.style := by
  unfold saveAnalyticsToCookie
  split_ifs <;> simp only [flushBody_style]

@[simp] theorem saveAnalyticsToCookie_toggle (w : World) :
    (saveAnalyticsToCookie w).toggle = w.toggle := by
  unfold saveAnalyticsToCookie
  split_ifs <;> simp only [flushBody_toggle]

@[simp] theorem saveAnalyticsToCookie_flushFault (w : World) :
    (saveAnalyticsToCookie w).flushFault = w.flushFault := by
  unfold saveAnalyticsToCookie
  split_ifs <;> simp only [flushBody_flushFault]

@[simp] theorem saveAnalyticsToCookie_analytics (w : World) :
    (saveAnalyticsToCookie w).analytics = w.analytics := by
  unfold saveAnalyticsToCookie
  split_ifs <;> simp only [flushBody_analytics]

@[simp] theorem saveAnalyticsToCookie_currentTheme (w : World) :
    (saveAnalyticsToCookie w).currentTheme = w.currentTheme := by
  unfold saveAnalyticsToCookie
  split_ifs <;> simp only [flushBody_currentTheme]

@[simp] theorem saveAnalyticsToCookie_maxScroll (w : World) :
    (saveAnalyticsToCookie w).maxScroll = w.maxScroll := by
  unfold saveAnalyticsToCookie
  split_ifs <;> simp only [flushBody_maxScroll]

@[simp] theorem updateThemeToggle_clock (w : World) :
    (ThemeManager.updateThemeToggle w).clock = w.clock := by
  unfold ThemeManager.updateThemeToggle
  cases w.toggle <;> rfl

@[simp] theorem updateThemeToggle_pathname (w : World) :
    (ThemeManager.updateThemeToggle w).pathname = w.pathname := by
  unfold ThemeManager.updateThemeToggle
  cases w.toggle <;> rfl

@[simp] theorem updateThemeToggle_dataTheme (w : World) :
    (ThemeManager.updateThemeToggle w).dataTheme = w.dataTheme := by
  unfold ThemeManager.updateThemeToggle
  cases w.toggle <;> rfl

@[simp] theorem updateThemeToggle_bodyClasses (w : World) :
    (ThemeManager.updateThemeToggle w).bodyClasses = w.bodyClasses := by
  unfold ThemeManager.updateThemeToggle
  cases w.toggle <;> rfl

@[simp] theorem updateThemeToggle_style (w : World) :
    (ThemeManager.updateThemeToggle w).style = w.style := by
  unfold ThemeManager.updateThemeToggle
  cases w.toggle <;> rfl

@[simp] theorem updateThemeToggle_flushFault (w : World) :
    (ThemeManager.updateThemeToggle w).flushFault = w.flushFault := by
  unfold ThemeManager.updateThemeToggle
  cases w.toggle <;> rfl

@[simp] theorem updateThemeToggle_analytics (w : World) :
    (ThemeManager.updateThemeToggle w).analytics = w.analytics := by
  unfold ThemeManager.updateThemeToggle
  cases w.toggle <;> rfl

@[simp] theorem updateThemeToggle_currentTheme (w : World) :
    (ThemeManager.updateThemeToggle w).currentTheme = w.currentTheme := by
  unfold ThemeManager.updateThemeToggle
  cases w.toggle <;> rfl

@[simp] theorem updateThemeToggle_maxScroll (w : World) :
    (ThemeManager.updateThemeToggle w).maxScroll = w.maxScroll := by
  unfold ThemeManager.updateThemeToggle
  cases w.toggle <;> rfl

@[simp] theorem updateThemeToggle_cookies (w : World) :
    (ThemeManager.updateThemeToggle w).cookies = w.cookies := by
  unfold ThemeManager.updateThemeToggle
  cases w.toggle <;> rfl

@[simp] theorem updateThemeToggle_ticks (w : World) :
    (ThemeManager.updateThemeToggle w).ticks = w.ticks := by
  unfold ThemeManager.updateThemeToggle
  cases w.toggle <;> rfl

@[simp] theorem updateThemeToggle_console (w : World) :
    (ThemeManager.updateThemeToggle w).console = w.console := by
  unfold ThemeManager.updateThemeToggle
  cases w.toggle <;> rfl
/-! ## The cookie store -/

theorem takeWhile_append_stop (p : Char → Bool) (k v : Str) (c : Char)
    (hk : ∀ x ∈ k, p x = true) (hc : p c = false) :
    (k ++ c :: v).takeWhile p = k := by
  induction k with
  | nil => simp [List.takeWhile, hc]
  | cons a k ih =>
    have ha : p a = true := hk a (List.mem_cons_self a k)
    have hk2 : ∀ x ∈ k, p x = true := fun x hx => hk x (List.mem_cons_of_mem a hx)
    simp [List.takeWhile, ha, ih hk2]

theorem takeWhile_append_go (p : Char → Bool) (k v : Str) (hk : ∀ x ∈ k, p x = true) :
    (k ++ v).takeWhile p = k ++ v.takeWhile p := by
  induction k with
  | nil => simp
  | cons a k ih =>
    have ha : p a = true := hk a (List.mem_cons_self a k)
    have hk2 : ∀ x ∈ k, p x = true := fun x hx => hk x (List.mem_cons_of_mem a hx)
    simp [List.takeWhile, ha, ih hk2]

theorem dropWhile_append_stop (p : Char → Bool) (k v : Str) (c : Char)
    (hk : ∀ x ∈ k, p x = true) (hc : p c = false) :
    (k ++ c :: v).dropWhile p = c :: v := by
  induction k with
  | nil => simp [List.dropWhile, hc]
  | cons a k ih =>
    have ha : p a = true := hk a (List.mem_cons_self a k)
    have hk2 : ∀ x ∈ k, p x = true := fun x hx => hk x (List.mem_cons_of_mem a hx)
    simp [List.dropWhile, ha, ih hk2]

theorem takeWhile_eq_self (p : Char → Bool) (k : Str) (hk : ∀ x ∈ k, p x = true) :
    k.takeWhile p = k := by
  induction k with
  | nil => rfl
  | cons a k ih =>
    have ha : p a = true := hk a (List.mem_cons_self a k)
    have hk2 : ∀ x ∈ k, p x = true := fun x hx => hk x (List.mem_cons_of_mem a hx)
    simp [List.takeWhile, ha, ih hk2]

theorem ne_of_not_mem (c : Char) (k : Str) (h : c ∉ k) : ∀ x ∈ k, (x != c) = true := by
  intro x hx
  simp only [bne_iff_ne, ne_eq]
  rintro rfl
  exact h hx

/-- The assignment of `name=value` for a clean name stores, under that name,
the value up to its first semicolon, trimmed. -/
theorem assignCookie_clean (name value : Str) (jar : List Cookie) (h : CleanName name) :
    assignCookie (name ++ '=' :: value) false jar =
      storeCookie name (trim (value.takeWhile (fun c => c != ';'))) jar := by
  obtain ⟨hne, heq, hsemi, htrim⟩ := h
  have hpair : (name ++ '=' :: value).takeWhile (fun c => c != ';') =
      name ++ '=' :: value.takeWhile (fun c => c != ';') := by
    rw [takeWhile_append_go _ _ _ (ne_of_not_mem ';' name hsemi)]
    simp [List.takeWhile]
  have hmem : '=' ∈ name ++ '=' :: value.takeWhile (fun c => c != ';') := by simp
  have hname : (name ++ '=' :: value.takeWhile (fun c => c != ';')).takeWhile
      (fun c => c != '=') = name :=
    takeWhile_append_stop _ _ _ _ (ne_of_not_mem '=' name heq) (by simp)
  have hval : (name ++ '=' :: value.takeWhile (fun c => c != ';')).dropWhile
      (fun c => c != '=') = '=' :: value.takeWhile (fun c => c != ';') :=
    dropWhile_append_stop _ _ _ _ (ne_of_not_mem '=' name heq) (by simp)
  unfold assignCookie
  simp only [hpair, hmem, if_true, hname, hval, htrim, hne, if_false, List.drop_one,
    List.tail_cons, Bool.false_eq_true]

theorem cookieValue_storeCookie_same (name value : Str) (jar : List Cookie) :
    cookieValue name (storeCookie name value jar) = some value := by
  induction jar with
  | nil => simp [storeCookie, cookieValue]
  | cons c rest ih =>
    unfold storeCookie
    split_ifs with h
    · simp [cookieValue]
    · simp [cookieValue, h, ih]

theorem cookieValue_storeCookie_other (name other value : Str) (jar : List Cookie)
    (h : other ≠ name) :
    cookieValue name (storeCookie other value jar) = cookieValue name jar := by
  induction jar with
  | nil => simp [storeCookie, cookieValue, h]
  | cons c rest ih =>
    unfold storeCookie
    split_ifs with hc
    · simp [cookieValue, hc, h]
    · simp [cookieValue, ih]

theorem analytics_data_clean : CleanName "analytics_data".toList := by decide

theorem analytics_interactions_clean : CleanName "analytics_interactions".toList := by decide

theorem analytics_theme_changes_clean : CleanName "analytics_theme_changes".toList := by decide

theorem theme_preference_clean : CleanName "theme_preference".toList := by decide

/-- What a flush leaves in the store for a name that is none of its three. -/
theorem flushBody_cookieValue_other (name : Str) (w : World)
    (h1 : "analytics_data".toList ≠ name) (h2 : "analytics_interactions".toList ≠ name)
    (h3 : "analytics_theme_changes".toList ≠ name) :
    cookieValue name (flushBody w).1.cookies = cookieValue name w.cookies := by
  unfold flushBody
  split_ifs <;>
    simp only [setCookie_cookies, tick_cookies, failedWrite_cookies,
      assignCookie_clean _ _ _ analytics_data_clean,
      assignCookie_clean _ _ _ analytics_interactions_clean,
      assignCookie_clean _ _ _ analytics_theme_changes_clean,
      cookieValue_storeCookie_other _ _ _ _ h1, cookieValue_storeCookie_other _ _ _ _ h2,
      cookieValue_storeCookie_other _ _ _ _ h3]

theorem saveAnalyticsToCookie_cookies (w : World) :
    (saveAnalyticsToCookie w).cookies = (flushBody w).1.cookies := by
  unfold saveAnalyticsToCookie
  split_ifs <;> rfl

theorem saveAnalyticsToCookie_cookieValue_other (name : Str) (w : World)
    (h1 : "analytics_data".toList ≠ name) (h2 : "analytics_interactions".toList ≠ name)
    (h3 : "analytics_theme_changes".toList ≠ name) :
    cookieValue name (saveAnalyticsToCookie w).cookies = cookieValue name w.cookies := by
  rw [saveAnalyticsToCookie_cookies, flushBody_cookieValue_other name w h1 h2 h3]

/-! ## Reading the store back through `document.cookie` -/

theorem split_no_sep (sep : Char) (s : Str) (h : sep ∉ s) : split sep s = [s] := by
  induction s with
  | nil => rfl
  | cons a s ih =>
    simp only [List.mem_cons, not_or] at h
    have ha : ¬ a = sep := fun e => h.1 e.symm
    simp [split, ha, ih h.2]

theorem split_append_sep (sep : Char) (s t : Str) (h : sep ∉ s) :
    split sep (s ++ sep :: t) = s :: split sep t := by
  induction s with
  | nil => simp [split]
  | cons a s ih =>
    simp only [List.mem_cons, not_or] at h
    have ha : ¬ a = sep := fun e => h.1 e.symm
    simp [split, ha, ih h.2]

theorem stripLeadingSpaces_of_head (s : Str) (h : s.head? ≠ some ' ') :
    stripLeadingSpaces s = s := by
  cases s with
  | nil => rfl
  | cons a s =>
    have ha : ¬ a = ' ' := by
      intro e
      apply h
      simp [e]
    simp [stripLeadingSpaces, ha]

theorem segmentKey_pair (k v : Str) (hk : '=' ∉ k) : segmentKey (k ++ '=' :: v) = some k := by
  have hmem : '=' ∈ k ++ '=' :: v := by simp
  simp only [segmentKey, hmem, if_true, takeWhile_ne_append k v hk]

theorem segmentValue_pair (k v : Str) (hk : '=' ∉ k) : segmentValue (k ++ '=' :: v) = v := by
  simp only [segmentValue, dropWhile_ne_append k v hk, List.drop_one, List.tail_cons]

/-- The loop of `getCookie` on the segment of one stored cookie. -/
theorem getCookieLoop_pair (name : Str) (hname : '=' ∉ name) (c : Cookie) (segs : List Str)
    (hc1 : '=' ∉ c.name) (hc2 : c.name.head? ≠ some ' ') (hc3 : c.name ≠ []) :
    getCookieLoop (name ++ ['=']) ((c.name ++ '=' :: c.value) :: segs) =
      (if c.name = name then some c.value else getCookieLoop (name ++ ['=']) segs) ∧
    getCookieLoop (name ++ ['=']) ((' ' :: (c.name ++ '=' :: c.value)) :: segs) =
      (if c.name = name then some c.value else getCookieLoop (name ++ ['=']) segs) := by
  have hhead : (c.name ++ '=' :: c.value).head? ≠ some ' ' := by
    cases hn : c.name with
    | nil => exact absurd hn hc3
    | cons a rest =>
      rw [hn] at hc2
      simpa using hc2
  have hstrip : stripLeadingSpaces (c.name ++ '=' :: c.value) = c.name ++ '=' :: c.value :=
    stripLeadingSpaces_of_head _ hhead
  have hstrip2 : stripLeadingSpaces (' ' :: (c.name ++ '=' :: c.value)) =
      c.name ++ '=' :: c.value := by
    rw [stripLeadingSpaces, if_pos rfl, hstrip]
  have hkey := segmentKey_pair c.name c.value hc1
  have main : (if startsWith (name ++ ['=']) (c.name ++ '=' :: c.value) = true then
        some ((c.name ++ '=' :: c.value).drop (name ++ ['=']).length)
      else getCookieLoop (name ++ ['=']) segs) =
      (if c.name = name then some c.value else getCookieLoop (name ++ ['=']) segs) := by
    by_cases h : c.name = name
    · have hs : startsWith (name ++ ['=']) (c.name ++ '=' :: c.value) = true :=
        (startsWith_nameEQ_iff name _ hname).mpr (by rw [hkey, h])
      rw [if_pos hs, if_pos h, drop_nameEQ name _ hname (by rw [hkey, h]),
        segmentValue_pair _ _ hc1]
    · have hs : ¬ startsWith (name ++ ['=']) (c.name ++ '=' :: c.value) = true := by
        intro hs
        have := (startsWith_nameEQ_iff name _ hname).mp hs
        rw [hkey] at this
        exact h (Option.some.inj this)
      rw [if_neg hs, if_neg h]
  constructor
  · rw [getCookieLoop]
    simp only [hstrip]
    exact main
  · rw [getCookieLoop]
    simp only [hstrip2]
    exact main

theorem documentCookie_cons (c : Cookie) (d : Cookie) (rest : List Cookie) :
    documentCookie (c :: d :: rest) =
      (c.name ++ '=' :: c.value) ++ ';' :: (' ' :: documentCookie (d :: rest)) := by
  simp [documentCookie]

/-- On a well-formed store, `getCookie` reads from `document.cookie` the value
the store holds under a name without `=`. -/
theorem getCookie_documentCookie (jar : List Cookie) (name : Str) (hjar : JarWF jar)
    (hname : '=' ∉ name) :
    getCookie (documentCookie jar) name = cookieValue name jar := by
  unfold getCookie
  have key : ∀ jar : List Cookie,
      (∀ c ∈ jar, c.name ≠ [] ∧ '=' ∉ c.name ∧ ';' ∉ c.name ∧ c.name.head? ≠ some ' ' ∧
        ';' ∉ c.value) → jar ≠ [] →
      getCookieLoop (name ++ ['=']) (split ';' (documentCookie jar)) = cookieValue name jar ∧
      getCookieLoop (name ++ ['=']) (split ';' (' ' :: documentCookie jar)) =
        cookieValue name jar := by
    intro jar
    induction jar with
    | nil => intro _ h; exact absurd rfl h
    | cons c rest ih =>
      intro hall _
      obtain ⟨hc3, hc1, hcs, hc2, hv⟩ := hall c (List.mem_cons_self c rest)
      have hseg : ';' ∉ c.name ++ '=' :: c.value := by
        simp only [List.mem_append, List.mem_cons, not_or]
        exact ⟨hcs, by decide, hv⟩
      have hseg2 : ';' ∉ ' ' :: (c.name ++ '=' :: c.value) := by
        simp only [List.mem_cons, not_or]
        exact ⟨by decide, by simpa using hseg⟩
      cases rest with
      | nil =>
        have hdc : documentCookie [c] = c.name ++ '=' :: c.value := rfl
        rw [hdc, split_no_sep _ _ hseg, split_no_sep _ _ hseg2]
        obtain ⟨p1, p2⟩ := getCookieLoop_pair name hname c [] hc1 hc2 hc3
        rw [p1, p2]
        simp [cookieValue, getCookieLoop]
      | cons d rest' =>
        have hrest := ih (fun x hx => hall x (List.mem_cons_of_mem c hx)) (by simp)
        rw [documentCookie_cons]
        have e2 : ' ' :: (c.name ++ '=' :: c.value ++ ';' :: ' ' :: documentCookie (d :: rest')) =
            (' ' :: (c.name ++ '=' :: c.value)) ++ ';' :: (' ' :: documentCookie (d :: rest')) := by
          simp
        rw [e2, split_append_sep _ _ _ hseg, split_append_sep _ _ _ hseg2]
        obtain ⟨p1, p2⟩ := getCookieLoop_pair name hname c
          (split ';' (' ' :: documentCookie (d :: rest'))) hc1 hc2 hc3
        rw [p1, p2, hrest.2]
        simp [cookieValue]
  cases jar with
  | nil =>
    have hs : startsWith (name ++ ['=']) [] = false := by
      cases name <;> rfl
    simp [documentCookie, split, getCookieLoop, stripLeadingSpaces, hs, cookieValue]
  | cons c rest => exact (key (c :: rest) hjar.1 (by simp)).1

/-! ### The store stays well formed -/

theorem mem_storeCookie (name value : Str) (jar : List Cookie) (c : Cookie)
    (h : c ∈ storeCookie name value jar) : c = ⟨name, value⟩ ∨ c ∈ jar := by
  induction jar with
  | nil =>
    simp only [storeCookie, List.mem_singleton] at h
    exact Or.inl h
  | cons a rest ih =>
    unfold storeCookie at h
    split_ifs at h with ha
    · rcases List.mem_cons.mp h with h | h
      · exact Or.inl h
      · exact Or.inr (List.mem_cons_of_mem _ h)
    · rcases List.mem_cons.mp h with h | h
      · exact Or.inr (by rw [h]; exact List.mem_cons_self _ _)
      · rcases ih h with h | h
        · exact Or.inl h
        · exact Or.inr (List.mem_cons_of_mem _ h)

theorem names_storeCookie (name value : Str) (jar : List Cookie) (x : Str)
    (h : x ∈ (storeCookie name value jar).map Cookie.name) :
    x = name ∨ x ∈ jar.map Cookie.name := by
  obtain ⟨c, hc, rfl⟩ := List.mem_map.mp h
  rcases mem_storeCookie name value jar c hc with h | h
  · exact Or.inl (by rw [h])
  · exact Or.inr (List.mem_map.mpr ⟨c, h, rfl⟩)

theorem nodup_storeCookie (name value : Str) (jar : List Cookie)
    (h : (jar.map Cookie.name).Nodup) : ((storeCookie name value jar).map Cookie.name).Nodup := by
  induction jar with
  | nil => simp [storeCookie]
  | cons a rest ih =>
    simp only [List.map_cons, List.nodup_cons] at h
    unfold storeCookie
    split_ifs with ha
    · simp only [List.map_cons, List.nodup_cons]
      rw [← ha]
      exact h
    · simp only [List.map_cons, List.nodup_cons]
      refine ⟨?_, ih h.2⟩
      intro hmem
      rcases names_storeCookie name value rest a.name hmem with h' | h'
      · exact ha h'
      · exact h.1 h'

theorem storeCookie_wf (name value : Str) (jar : List Cookie) (hjar : JarWF jar)
    (h1 : name ≠ []) (h2 : '=' ∉ name) (h3 : ';' ∉ name) (h4 : name.head? ≠ some ' ')
    (h5 : ';' ∉ value) : JarWF (storeCookie name value jar) := by
  refine ⟨?_, nodup_storeCookie name value jar hjar.2⟩
  intro c hc
  rcases mem_storeCookie name value jar c hc with h | h
  · rw [h]
    exact ⟨h1, h2, h3, h4, h5⟩
  · exact hjar.1 c h

theorem mem_trimLeft (s : Str) (c : Char) (h : c ∈ trimLeft s) : c ∈ s := by
  induction s with
  | nil => simp [trimLeft] at h
  | cons a s ih =>
    unfold trimLeft at h
    split_ifs at h
    · exact List.mem_cons_of_mem _ (ih h)
    · exact h

theorem mem_trim (s : Str) (c : Char) (h : c ∈ trim s) : c ∈ s := by
  unfold trim at h
  rw [List.mem_reverse] at h
  have := mem_trimLeft _ _ h
  rw [List.mem_reverse] at this
  exact mem_trimLeft _ _ this

theorem not_mem_takeWhile_semi (s : Str) : ';' ∉ s.takeWhile (fun c => c != ';') := by
  intro h
  have := List.mem_takeWhile_imp h
  simp at this

/-- The store stays well formed when the script writes one of its cookies. -/
theorem assignCookie_wf (name value : Str) (jar : List Cookie) (hjar : JarWF jar)
    (hname : CleanName name) (hhead : name.head? ≠ some ' ') :
    JarWF (assignCookie (name ++ '=' :: value) false jar) := by
  rw [assignCookie_clean name value jar hname]
  obtain ⟨h1, h2, h3, _⟩ := hname
  refine storeCookie_wf _ _ _ hjar h1 h2 h3 hhead ?_
  intro hmem
  exact not_mem_takeWhile_semi value (mem_trim _ _ hmem)

theorem flushBody_wf (w : World) (hjar : JarWF w.cookies) : JarWF (flushBody w).1.cookies := by
  have a1 := fun v jar hj =>
    assignCookie_wf "analytics_data".toList v jar hj analytics_data_clean (by decide)
  have a2 := fun v jar hj =>
    assignCookie_wf "analytics_interactions".toList v jar hj analytics_interactions_clean
      (by decide)
  have a3 := fun v jar hj =>
    assignCookie_wf "analytics_theme_changes".toList v jar hj analytics_theme_changes_clean
      (by decide)
  unfold flushBody
  split_ifs <;>
    simp only [setCookie_cookies, tick_cookies, failedWrite_cookies]
  · exact hjar
  · exact hjar
  · exact a1 _ _ hjar
  · exact a1 _ _ hjar
  · exact a2 _ _ (a1 _ _ hjar)
  · exact a2 _ _ (a1 _ _ hjar)
  · exact a3 _ _ (a2 _ _ (a1 _ _ hjar))

theorem saveAnalyticsToCookie_wf (w : World) (hjar : JarWF w.cookies) :
    JarWF (saveAnalyticsToCookie w).cookies := by
  rw [saveAnalyticsToCookie_cookies]
  exact flushBody_wf w hjar

/-! ## The tracking functions -/

theorem trackThemeChange_analytics (a b : Str) (w : World) :
    (trackThemeChange a b w).analytics =
      { w.analytics with
        themeChanges := w.analytics.themeChanges ++
          [{ timestamp := w.now, fromTheme := a, toTheme := b, page := w.pathname }] } := by
  unfold trackThemeChange
  simp only [saveAnalyticsToCookie_analytics, tick_analytics]

theorem trackInteraction_analytics (type : Str) (element : Option Element)
    (details : Option Json) (w : World) :
    (trackInteraction type element details w).analytics =
      { w.analytics with
        interactions := w.analytics.interactions ++ [newInteraction type element details w] } := by
  unfold trackInteraction
  simp only [saveAnalyticsToCookie_analytics, tick_analytics]

theorem trackThemeChange_currentTheme (a b : Str) (w : World) :
    (trackThemeChange a b w).currentTheme = w.currentTheme := by
  unfold trackThemeChange
  simp only [saveAnalyticsToCookie_currentTheme, tick_currentTheme]

theorem trackThemeChange_dataTheme (a b : Str) (w : World) :
    (trackThemeChange a b w).dataTheme = w.dataTheme := by
  unfold trackThemeChange
  simp only [saveAnalyticsToCookie_dataTheme, tick_dataTheme]

theorem trackThemeChange_bodyClasses (a b : Str) (w : World) :
    (trackThemeChange a b w).bodyClasses = w.bodyClasses := by
  unfold trackThemeChange
  simp only [saveAnalyticsToCookie_bodyClasses, tick_bodyClasses]

theorem trackThemeChange_pathname (a b : Str) (w : World) :
    (trackThemeChange a b w).pathname = w.pathname := by
  unfold trackThemeChange
  simp only [saveAnalyticsToCookie_pathname, tick_pathname]

theorem trackThemeChange_cookieValue (a b : Str) (w : World) :
    cookieValue "theme_preference".toList (trackThemeChange a b w).cookies =
      cookieValue "theme_preference".toList w.cookies := by
  unfold trackThemeChange
  rw [saveAnalyticsToCookie_cookieValue_other _ _ (by decide) (by decide) (by decide)]
  rfl

theorem trackInteraction_currentTheme (type : Str) (element : Option Element)
    (details : Option Json) (w : World) :
    (trackInteraction type element details w).currentTheme = w.currentTheme := by
  unfold trackInteraction
  simp only [saveAnalyticsToCookie_currentTheme, tick_currentTheme]

theorem trackInteraction_dataTheme (type : Str) (element : Option Element)
    (details : Option Json) (w : World) :
    (trackInteraction type element details w).dataTheme = w.dataTheme := by
  unfold trackInteraction
  simp only [saveAnalyticsToCookie_dataTheme, tick_dataTheme]

theorem trackInteraction_bodyClasses (type : Str) (element : Option Element)
    (details : Option Json) (w : World) :
    (trackInteraction type element details w).bodyClasses = w.bodyClasses := by
  unfold trackInteraction
  simp only [saveAnalyticsToCookie_bodyClasses, tick_bodyClasses]

theorem trackInteraction_maxScroll (type : Str) (element : Option Element)
    (details : Option Json) (w : World) :
    (trackInteraction type element details w).maxScroll = w.maxScroll := by
  unfold trackInteraction
  simp only [saveAnalyticsToCookie_maxScroll, tick_maxScroll]

/-! ## The theme manager -/

theorem otherTheme_ne (theme : Str) (h : theme = dark ∨ theme = light) :
    otherTheme theme ≠ theme := by
  rcases h with rfl | rfl <;> decide

theorem otherTheme_valid (theme : Str) : otherTheme theme = dark ∨ otherTheme theme = light := by
  unfold otherTheme
  split_ifs
  · exact Or.inr rfl
  · exact Or.inl rfl

theorem otherTheme_otherTheme (theme : Str) (h : theme = dark ∨ theme = light) :
    otherTheme (otherTheme theme) = theme := by
  rcases h with rfl | rfl <;> decide

/-- The class list after `setTheme`: the class of the theme is there, the
class of the other theme is not. -/
theorem bodyClasses_after (theme : Str) (classes : List Str)
    (ht : theme = dark ∨ theme = light) :
    themeClass theme ∈
        classListAdd (themeClass theme) (classListRemove (themeClass dark) (themeClass light)
          classes) ∧
      themeClass (otherTheme theme) ∉
        classListAdd (themeClass theme) (classListRemove (themeClass dark) (themeClass light)
          classes) := by
  have hinj : themeClass (otherTheme theme) ≠ themeClass theme := by
    intro h
    exact otherTheme_ne theme ht (List.append_cancel_left h)
  have hrem : themeClass (otherTheme theme) ∉
      classListRemove (themeClass dark) (themeClass light) classes := by
    intro h
    unfold classListRemove at h
    rw [List.mem_filter] at h
    rcases otherTheme_valid theme with ho | ho <;> rw [ho] at h <;> simp at h
  constructor
  · unfold classListAdd
    split_ifs with h
    · exact h
    · simp
  · unfold classListAdd
    split_ifs with h
    · exact hrem
    · simp only [List.mem_append, List.mem_singleton, not_or]
      exact ⟨hrem, hinj⟩

/-- What `setTheme` does for a valid theme, step by step. -/
theorem setTheme_valid (theme : Str) (track : Bool) (w : World)
    (h : theme = dark ∨ theme = light) :
    ThemeManager.setTheme theme track w =
      ThemeManager.updateThemeToggle
        (if track = true ∧ w.currentTheme ≠ theme then
          trackThemeChange w.currentTheme theme
            (setCookie "theme_preference".toList theme
              { w with
                currentTheme := theme
                dataTheme := some theme
                bodyClasses :=
                  classListAdd (themeClass theme)
                    (classListRemove (themeClass dark) (themeClass light) w.bodyClasses)
                style := setProperties (themeProperties theme) w.style })
        else
          setCookie "theme_preference".toList theme
            { w with
              currentTheme := theme
              dataTheme := some theme
              bodyClasses :=
                classListAdd (themeClass theme)
                  (classListRemove (themeClass dark) (themeClass light) w.bodyClasses)
              style := setProperties (themeProperties theme) w.style }) := by
  have hv : ¬ (theme ≠ dark ∧ theme ≠ light) := by
    rcases h with h | h <;> simp [h]
  unfold ThemeManager.setTheme
  rw [if_neg hv]

theorem setTheme_currentTheme (theme : Str) (track : Bool) (w : World)
    (h : theme = dark ∨ theme = light) :
    (ThemeManager.setTheme theme track w).currentTheme = theme := by
  rw [setTheme_valid theme track w h, updateThemeToggle_currentTheme]
  split_ifs
  · rw [trackThemeChange_currentTheme, setCookie_currentTheme]
  · rw [setCookie_currentTheme]

theorem setTheme_dataTheme (theme : Str) (track : Bool) (w : World)
    (h : theme = dark ∨ theme = light) :
    (ThemeManager.setTheme theme track w).dataTheme = some theme := by
  rw [setTheme_valid theme track w h, updateThemeToggle_dataTheme]
  split_ifs
  · rw [trackThemeChange_dataTheme, setCookie_dataTheme]
  · rw [setCookie_dataTheme]

theorem setTheme_bodyClasses (theme : Str) (track : Bool) (w : World)
    (h : theme = dark ∨ theme = light) :
    (ThemeManager.setTheme theme track w).bodyClasses =
      classListAdd (themeClass theme)
        (classListRemove (themeClass dark) (themeClass light) w.bodyClasses) := by
  rw [setTheme_valid theme track w h, updateThemeToggle_bodyClasses]
  split_ifs
  · rw [trackThemeChange_bodyClasses, setCookie_bodyClasses]
  · rw [setCookie_bodyClasses]

theorem setTheme_pathname (theme : Str) (track : Bool) (w : World) :
    (ThemeManager.setTheme theme track w).pathname = w.pathname := by
  unfold ThemeManager.setTheme
  by_cases hv : theme ≠ dark ∧ theme ≠ light
  · rw [if_pos hv]
  · rw [if_neg hv, updateThemeToggle_pathname]
    split_ifs <;> simp only [trackThemeChange_pathname, setCookie_pathname]

theorem setTheme_analytics (theme : Str) (track : Bool) (w : World)
    (h : theme = dark ∨ theme = light) :
    (ThemeManager.setTheme theme track w).analytics =
      { w.analytics with
        themeChanges := w.analytics.themeChanges ++
          (if track = true ∧ w.currentTheme ≠ theme then
            [{ timestamp := w.clock (w.ticks + 1), fromTheme := w.currentTheme, toTheme := theme,
               page := w.pathname }]
          else []) } := by
  rw [setTheme_valid theme track w h, updateThemeToggle_analytics]
  split_ifs
  · rw [trackThemeChange_analytics]
    rfl
  · simp only [setCookie_analytics, List.append_nil]

theorem setTheme_cookieValue (theme : Str) (track : Bool) (w : World)
    (h : theme = dark ∨ theme = light) :
    cookieValue "theme_preference".toList (ThemeManager.setTheme theme track w).cookies =
      some theme := by
  have hstore : ∀ jar : List Cookie,
      cookieValue "theme_preference".toList
        (assignCookie ("theme_preference".toList ++ '=' :: theme) false jar) = some theme := by
    intro jar
    rw [assignCookie_clean _ _ _ theme_preference_clean]
    have : trim (theme.takeWhile (fun c => c != ';')) = theme := by
      rcases h with rfl | rfl <;> decide
    rw [this, cookieValue_storeCookie_same]
  rw [setTheme_valid theme track w h, updateThemeToggle_cookies]
  split_ifs
  · rw [trackThemeChange_cookieValue, setCookie_cookies, hstore]
  · rw [setCookie_cookies, hstore]

/-- C1: for every input `theme`, flag `track` and state of the manager and the
document: if `theme` is `dark` or `light`, then after `setTheme(theme, track)`
the current theme is `theme`, the root element's `data-theme` attribute is
`theme`, and the body carries the class `theme-<theme>` and not the class of
the other theme; if `theme` is any other value, `setTheme` changes nothing: the
current theme, the document's attributes, classes and CSS variables, the
cookies (so the `theme_preference` cookie) and the event log are as before. -/
theorem setTheme_spec (theme : Str) (track : Bool) (w : World) :
    ((theme = dark ∨ theme = light) →
      (ThemeManager.setTheme theme track w).currentTheme = theme ∧
      (ThemeManager.setTheme theme track w).dataTheme = some theme ∧
      themeClass theme ∈ (ThemeManager.setTheme theme track w).bodyClasses ∧
      themeClass (otherTheme theme) ∉ (ThemeManager.setTheme theme track w).bodyClasses) ∧
    ((theme ≠ dark ∧ theme ≠ light) → ThemeManager.setTheme theme track w = w) := by
  constructor
  · intro h
    refine ⟨setTheme_currentTheme theme track w h, setTheme_dataTheme theme track w h, ?_, ?_⟩
    · rw [setTheme_bodyClasses theme track w h]
      exact (bodyClasses_after theme w.bodyClasses h).1
    · rw [setTheme_bodyClasses theme track w h]
      exact (bodyClasses_after theme w.bodyClasses h).2
  · intro h
    unfold ThemeManager.setTheme
    rw [if_pos h]

theorem setTheme_spec_witness :
    ((ThemeManager.setTheme light true freshWorld).currentTheme = light ∧
      (ThemeManager.setTheme light true freshWorld).dataTheme = some light ∧
      themeClass light ∈ (ThemeManager.setTheme light true freshWorld).bodyClasses ∧
      themeClass (otherTheme light) ∉
        (ThemeManager.setTheme light true freshWorld).bodyClasses) ∧
    ThemeManager.setTheme "blue".toList true freshWorld = freshWorld :=
  ⟨(setTheme_spec light true freshWorld).1 (Or.inr rfl),
    (setTheme_spec "blue".toList true freshWorld).2 (by decide)⟩

/-- C8: for every valid theme `t`, every flag `track` and every prior current
theme, `setTheme(t, track)` appends a theme-change entry if and only if `track`
is true and the prior theme differs from `t`; when it appends, it appends
exactly one entry, with `from` the prior theme and `to` equal to `t`; in every
case it writes the `theme_preference` cookie with value `t` and appends nothing
to the interaction and page-view lists. -/
theorem setTheme_tracking (t : Str) (track : Bool) (w : World) (ht : t = dark ∨ t = light) :
    (ThemeManager.setTheme t track w).analytics.themeChanges =
      w.analytics.themeChanges ++
        (if track = true ∧ w.currentTheme ≠ t then
          [{ timestamp := w.clock (w.ticks + 1), fromTheme := w.currentTheme, toTheme := t,
             page := w.pathname }]
        else []) ∧
    ((ThemeManager.setTheme t track w).analytics.themeChanges.length =
        w.analytics.themeChanges.length + 1 ↔ (track = true ∧ w.currentTheme ≠ t)) ∧
    cookieValue "theme_preference".toList (ThemeManager.setTheme t track w).cookies = some t ∧
    (ThemeManager.setTheme t track w).analytics.interactions = w.analytics.interactions ∧
    (ThemeManager.setTheme t track w).analytics.pageViews = w.analytics.pageViews := by
  rw [setTheme_analytics t track w ht]
  refine ⟨rfl, ?_, setTheme_cookieValue t track w ht, rfl, rfl⟩
  simp only [List.length_append]
  split_ifs with h
  · simp [h]
  · simp [h]

theorem setTheme_tracking_witness :
    (ThemeManager.setTheme light true freshWorld).analytics.themeChanges =
      freshWorld.analytics.themeChanges ++
        (if true = true ∧ freshWorld.currentTheme ≠ light then
          [{ timestamp := freshWorld.clock (freshWorld.ticks + 1),
             fromTheme := freshWorld.currentTheme, toTheme := light,
             page := freshWorld.pathname }]
        else []) ∧
    ((ThemeManager.setTheme light true freshWorld).analytics.themeChanges.length =
        freshWorld.analytics.themeChanges.length + 1 ↔
      (true = true ∧ freshWorld.currentTheme ≠ light)) ∧
    cookieValue "theme_preference".toList (ThemeManager.setTheme light true freshWorld).cookies =
      some light ∧
    (ThemeManager.setTheme light true freshWorld).analytics.interactions =
      freshWorld.analytics.interactions ∧
    (ThemeManager.setTheme light true freshWorld).analytics.pageViews =
      freshWorld.analytics.pageViews :=
  setTheme_tracking light true freshWorld (Or.inr rfl)

/-! ## Toggling and initialisation -/

theorem toggleTheme_eq (t : Str) (w : World) (hw : w.currentTheme = t) :
    ThemeManager.toggleTheme w =
      trackInteraction "click".toList none (some (toggleDetails (otherTheme t)))
        (ThemeManager.setTheme (otherTheme t) true w) := by
  unfold ThemeManager.toggleTheme
  rw [hw]
  rfl

/-- One call of `toggleTheme` from a valid theme. -/
theorem toggleTheme_once (t : Str) (w : World) (ht : t = dark ∨ t = light)
    (hw : w.currentTheme = t) :
    (ThemeManager.toggleTheme w).currentTheme = otherTheme t ∧
    (ThemeManager.toggleTheme w).dataTheme = some (otherTheme t) ∧
    (ThemeManager.toggleTheme w).bodyClasses =
      classListAdd (themeClass (otherTheme t))
        (classListRemove (themeClass dark) (themeClass light) w.bodyClasses) ∧
    (ThemeManager.toggleTheme w).analytics.pageViews = w.analytics.pageViews ∧
    (∃ c : ThemeChange,
      (ThemeManager.toggleTheme w).analytics.themeChanges = w.analytics.themeChanges ++ [c] ∧
      c.fromTheme = t ∧ c.toTheme = otherTheme t) ∧
    (∃ i : Interaction,
      (ThemeManager.toggleTheme w).analytics.interactions = w.analytics.interactions ++ [i] ∧
      i.type = "click".toList ∧ i.details = toggleDetails (otherTheme t)) := by
  have ho := otherTheme_valid t
  have hne : w.currentTheme ≠ otherTheme t := by
    rw [hw]
    exact (otherTheme_ne t ht).symm
  rw [toggleTheme_eq t w hw]
  refine ⟨?_, ?_, ?_, ?_, ?_, ?_⟩
  · rw [trackInteraction_currentTheme, setTheme_currentTheme _ _ _ ho]
  · rw [trackInteraction_dataTheme, setTheme_dataTheme _ _ _ ho]
  · rw [trackInteraction_bodyClasses, setTheme_bodyClasses _ _ _ ho]
  · rw [trackInteraction_analytics, setTheme_analytics _ _ _ ho]
  · refine ⟨{ timestamp := w.clock (w.ticks + 1), fromTheme := w.currentTheme,
              toTheme := otherTheme t, page := w.pathname }, ?_, hw, rfl⟩
    rw [trackInteraction_analytics, setTheme_analytics _ _ _ ho]
    simp only [hne, ne_eq, not_false_eq_true, and_self, if_true]
  · refine ⟨newInteraction "click".toList none (some (toggleDetails (otherTheme t)))
      (ThemeManager.setTheme (otherTheme t) true w), ?_, rfl, rfl⟩
    rw [trackInteraction_analytics, setTheme_analytics _ _ _ ho]

/-- C3: for every starting theme `t` in `dark`, `light`, calling `toggleTheme()`
twice returns the current theme and the document's theme state (the
`data-theme` attribute, the body class) to `t`, and appends exactly two
theme-change entries (`t` to the opposite, the opposite to `t`) and exactly two
interaction entries (type `click`, `details.action` = `theme_toggle`) to the
in-memory log. -/
theorem toggleTheme_twice (t : Str) (w : World) (ht : t = dark ∨ t = light)
    (hw : w.currentTheme = t) :
    (ThemeManager.toggleTheme (ThemeManager.toggleTheme w)).currentTheme = t ∧
    (ThemeManager.toggleTheme (ThemeManager.toggleTheme w)).dataTheme = some t ∧
    themeClass t ∈ (ThemeManager.toggleTheme (ThemeManager.toggleTheme w)).bodyClasses ∧
    themeClass (otherTheme t) ∉
      (ThemeManager.toggleTheme (ThemeManager.toggleTheme w)).bodyClasses ∧
    (∃ c1 c2 : ThemeChange,
      (ThemeManager.toggleTheme (ThemeManager.toggleTheme w)).analytics.themeChanges =
        w.analytics.themeChanges ++ [c1, c2] ∧
      c1.fromTheme = t ∧ c1.toTheme = otherTheme t ∧
      c2.fromTheme = otherTheme t ∧ c2.toTheme = t) ∧
    (∃ i1 i2 : Interaction,
      (ThemeManager.toggleTheme (ThemeManager.toggleTheme w)).analytics.interactions =
        w.analytics.interactions ++ [i1, i2] ∧
      i1.type = "click".toList ∧
      i1.details = .obj [("action".toList, .str "theme_toggle".toList),
        ("theme".toList, .str (otherTheme t))] ∧
      i2.type = "click".toList ∧
      i2.details = .obj [("action".toList, .str "theme_toggle".toList),
        ("theme".toList, .str t)]) ∧
    (ThemeManager.toggleTheme (ThemeManager.toggleTheme w)).analytics.pageViews =
      w.analytics.pageViews := by
  obtain ⟨h1c, _, _, h1p, ⟨c1, h1t, h1f, h1to⟩, ⟨i1, h1i, h1ty, h1d⟩⟩ :=
    toggleTheme_once t w ht hw
  obtain ⟨h2c, h2d, h2b, h2p, ⟨c2, h2t, h2f, h2to⟩, ⟨i2, h2i, h2ty, h2d'⟩⟩ :=
    toggleTheme_once (otherTheme t) (ThemeManager.toggleTheme w) (otherTheme_valid t) h1c
  rw [otherTheme_otherTheme t ht] at h2c h2d h2b h2to h2d'
  refine ⟨h2c, h2d, ?_, ?_, ⟨c1, c2, ?_, h1f, h1to, h2f, h2to⟩,
    ⟨i1, i2, ?_, h1ty, h1d, h2ty, h2d'⟩, ?_⟩
  · rw [h2b]
    exact (bodyClasses_after t _ ht).1
  · rw [h2b]
    exact (bodyClasses_after t _ ht).2
  · rw [h2t, h1t]
    simp
  · rw [h2i, h1i]
    simp
  · rw [h2p, h1p]

theorem toggleTheme_twice_witness :
    (ThemeManager.toggleTheme (ThemeManager.toggleTheme freshWorld)).currentTheme = dark ∧
    (ThemeManager.toggleTheme (ThemeManager.toggleTheme freshWorld)).dataTheme = some dark ∧
    themeClass dark ∈
      (ThemeManager.toggleTheme (ThemeManager.toggleTheme freshWorld)).bodyClasses ∧
    themeClass (otherTheme dark) ∉
      (ThemeManager.toggleTheme (ThemeManager.toggleTheme freshWorld)).bodyClasses ∧
    (∃ c1 c2 : ThemeChange,
      (ThemeManager.toggleTheme (ThemeManager.toggleTheme freshWorld)).analytics.themeChanges =
        freshWorld.analytics.themeChanges ++ [c1, c2] ∧
      c1.fromTheme = dark ∧ c1.toTheme = otherTheme dark ∧
      c2.fromTheme = otherTheme dark ∧ c2.toTheme = dark) ∧
    (∃ i1 i2 : Interaction,
      (ThemeManager.toggleTheme (ThemeManager.toggleTheme freshWorld)).analytics.interactions =
        freshWorld.analytics.interactions ++ [i1, i2] ∧
      i1.type = "click".toList ∧
      i1.details = .obj [("action".toList, .str "theme_toggle".toList),
        ("theme".toList, .str (otherTheme dark))] ∧
      i2.type = "click".toList ∧
      i2.details = .obj [("action".toList, .str "theme_toggle".toList),
        ("theme".toList, .str dark)]) ∧
    (ThemeManager.toggleTheme (ThemeManager.toggleTheme freshWorld)).analytics.pageViews =
      freshWorld.analytics.pageViews :=
  toggleTheme_twice dark freshWorld (Or.inl rfl) rfl

theorem createThemeToggle_currentTheme (w : World) :
    (ThemeManager.createThemeToggle w).currentTheme = w.currentTheme := by
  unfold ThemeManager.createThemeToggle
  cases w.toggle <;> simp only [updateThemeToggle_currentTheme]

theorem createThemeToggle_dataTheme (w : World) :
    (ThemeManager.createThemeToggle w).dataTheme = w.dataTheme := by
  unfold ThemeManager.createThemeToggle
  cases w.toggle <;> simp only [updateThemeToggle_dataTheme]

theorem createThemeToggle_bodyClasses (w : World) :
    (ThemeManager.createThemeToggle w).bodyClasses = w.bodyClasses := by
  unfold ThemeManager.createThemeToggle
  cases w.toggle <;> simp only [updateThemeToggle_bodyClasses]

theorem createThemeToggle_analytics (w : World) :
    (ThemeManager.createThemeToggle w).analytics = w.analytics := by
  unfold ThemeManager.createThemeToggle
  cases w.toggle <;> simp only [updateThemeToggle_analytics]

theorem createThemeToggle_pathname (w : World) :
    (ThemeManager.createThemeToggle w).pathname = w.pathname := by
  unfold ThemeManager.createThemeToggle
  cases w.toggle <;> simp only [updateThemeToggle_pathname]

theorem resolvedTheme_valid (w : World) : resolvedTheme w = dark ∨ resolvedTheme w = light := by
  unfold resolvedTheme
  split
  · split_ifs with h1 h2
    · exact h1
    · exact Or.inl rfl
    · exact Or.inr rfl
  · split_ifs
    · exact Or.inl rfl
    · exact Or.inr rfl

/-- The method `init` applies the resolved theme without tracking, creates the
toggle and records the change from `system`. -/
theorem init_eq (w : World) :
    ThemeManager.init w =
      trackThemeChange "system".toList
        (ThemeManager.createThemeToggle
          (ThemeManager.setTheme (resolvedTheme w) false w)).currentTheme
        (ThemeManager.createThemeToggle (ThemeManager.setTheme (resolvedTheme w) false w)) := by
  unfold ThemeManager.init resolvedTheme
  cases hs : getCookie (documentCookie w.cookies) "theme_preference".toList with
  | none => simp
  | some s =>
    by_cases h : s = dark ∨ s = light
    · have h' : some s = some light ∨ some s = some dark := by
        rcases h with h | h
        · exact Or.inr (by rw [h])
        · exact Or.inl (by rw [h])
      simp only [h', if_true, Option.getD_some, h]
    · have h' : ¬ (some s = some light ∨ some s = some dark) := by
        intro hc
        apply h
        rcases hc with hc | hc
        · exact Or.inr (Option.some.inj hc)
        · exact Or.inl (Option.some.inj hc)
      simp only [h', if_false, h]

/-- C4: for every initial cookie state and every system colour-scheme
preference, `init()` resolves the theme to the stored `theme_preference` value
when that value is `dark` or `light` and otherwise to the system preference
(`dark` if the system prefers dark, else `light`), applies it, and appends
exactly one theme-change entry to the log, whose `from` is `system` and whose
`to` is the resolved theme, also when the theme came from the stored cookie. -/
theorem init_spec (w : World) :
    (resolvedTheme w =
      (match getCookie (documentCookie w.cookies) "theme_preference".toList with
        | some s => if s = dark ∨ s = light then s else if w.prefersDark then dark else light
        | none => if w.prefersDark then dark else light)) ∧
    (ThemeManager.init w).currentTheme = resolvedTheme w ∧
    (ThemeManager.init w).dataTheme = some (resolvedTheme w) ∧
    themeClass (resolvedTheme w) ∈ (ThemeManager.init w).bodyClasses ∧
    themeClass (otherTheme (resolvedTheme w)) ∉ (ThemeManager.init w).bodyClasses ∧
    (∃ c : ThemeChange,
      (ThemeManager.init w).analytics.themeChanges = w.analytics.themeChanges ++ [c] ∧
      c.fromTheme = "system".toList ∧ c.toTheme = resolvedTheme w ∧ c.page = w.pathname) ∧
    (ThemeManager.init w).analytics.interactions = w.analytics.interactions ∧
    (ThemeManager.init w).analytics.pageViews = w.analytics.pageViews := by
  have hv := resolvedTheme_valid w
  rw [init_eq]
  refine ⟨rfl, ?_, ?_, ?_, ?_, ?_, ?_, ?_⟩
  · rw [trackThemeChange_currentTheme, createThemeToggle_currentTheme,
      setTheme_currentTheme _ _ _ hv]
  · rw [trackThemeChange_dataTheme, createThemeToggle_dataTheme, setTheme_dataTheme _ _ _ hv]
  · rw [trackThemeChange_bodyClasses, createThemeToggle_bodyClasses,
      setTheme_bodyClasses _ _ _ hv]
    exact (bodyClasses_after _ _ hv).1
  · rw [trackThemeChange_bodyClasses, createThemeToggle_bodyClasses,
      setTheme_bodyClasses _ _ _ hv]
    exact (bodyClasses_after _ _ hv).2
  · refine ⟨{ timestamp :=
                (ThemeManager.createThemeToggle
                  (ThemeManager.setTheme (resolvedTheme w) false w)).now
              fromTheme := "system".toList
              toTheme :=
                (ThemeManager.createThemeToggle
                  (ThemeManager.setTheme (resolvedTheme w) false w)).currentTheme
              page :=
                (ThemeManager.createThemeToggle
                  (ThemeManager.setTheme (resolvedTheme w) false w)).pathname },
      ?_, rfl, ?_, ?_⟩
    · rw [trackThemeChange_analytics, createThemeToggle_analytics,
        setTheme_analytics _ _ _ hv]
      simp only [Bool.false_eq_true, false_and, if_false, List.append_nil]
    · show (ThemeManager.createThemeToggle _).currentTheme = _
      rw [createThemeToggle_currentTheme, setTheme_currentTheme _ _ _ hv]
    · show (ThemeManager.createThemeToggle _).pathname = _
      rw [createThemeToggle_pathname, setTheme_pathname]
  · rw [trackThemeChange_analytics, createThemeToggle_analytics, setTheme_analytics _ _ _ hv]
  · rw [trackThemeChange_analytics, createThemeToggle_analytics, setTheme_analytics _ _ _ hv]

/-- The example of C4: with the cookie `theme_preference=light` stored, on a
system that prefers dark, `init()` applies `light` and logs the change from
`system` to `light`. -/
theorem init_light_cookie :
    resolvedTheme lightCookieWorld = light ∧
    (ThemeManager.init lightCookieWorld).currentTheme = light ∧
    (ThemeManager.init lightCookieWorld).analytics.themeChanges =
      [{ timestamp := 1007, fromTheme := "system".toList, toTheme := light,
         page := "/".toList }] := by
  decide

set_option maxRecDepth 100000 in
/-- The scenario of a fresh load: no cookie stored, the system prefers dark.
After `init()` the document has `data-theme="dark"`, the cookie
`theme_preference=dark` is set, the log holds the one theme change from
`system` to `dark` and one page view, and the interactions cookie reads `[]`. -/
theorem init_fresh_load :
    (init freshWorld).dataTheme = some dark ∧
    getCookie (documentCookie (init freshWorld).cookies) "theme_preference".toList =
      some dark ∧
    (init freshWorld).analytics.themeChanges =
      [{ timestamp := 1007, fromTheme := "system".toList, toTheme := dark,
         page := "/".toList }] ∧
    (init freshWorld).analytics.pageViews.length = 1 ∧
    getCookie (documentCookie (init freshWorld).cookies) "analytics_interactions".toList =
      some "[]".toList := by
  decide

/-! ## Time on page -/

theorem setLastTimeOnPage_append (value : Int) (earlier : List PageView) (p : PageView) :
    setLastTimeOnPage value (earlier ++ [p]) = earlier ++ [{ p with timeOnPage := value }] := by
  induction earlier with
  | nil => rfl
  | cons a rest ih =>
    cases hr : rest ++ [p] with
    | nil => simp at hr
    | cons b tl =>
      have : a :: rest ++ [p] = a :: b :: tl := by simp [← hr]
      rw [this, setLastTimeOnPage, ← hr, ih]
      simp

theorem trackTimeOnPage_some (w : World) (earlier : List PageView) (p : PageView)
    (h : w.analytics.pageViews = earlier ++ [p]) :
    (trackTimeOnPage w).analytics =
      { w.analytics with
        pageViews := earlier ++
          [{ p with timeOnPage := (w.now : Int) - (w.analytics.startTime : Int) }] } := by
  unfold trackTimeOnPage
  cases hp : w.analytics.pageViews with
  | nil =>
    rw [hp] at h
    simp at h
  | cons a rest =>
    simp only [saveAnalyticsToCookie_analytics, tick_analytics]
    rw [h, setLastTimeOnPage_append]

/-- C9: for every tracker state with at least one page-view record,
`trackTimeOnPage()` called at the clock reading `t1` and then at `t2` sets the
dwell time of the most recently recorded page view to `t1 - startTime` and then
to `t2 - startTime`, so for `t1 <= t2` the second value is not smaller than the
first; it changes no other page-view record and appends nothing to any list;
when the page-view list is empty it changes nothing and performs no flush. -/
theorem trackTimeOnPage_spec (w : World) :
    (∀ (earlier : List PageView) (p : PageView), w.analytics.pageViews = earlier ++ [p] →
      (trackTimeOnPage w).analytics.pageViews =
        earlier ++ [{ p with timeOnPage := (w.now : Int) - (w.analytics.startTime : Int) }] ∧
      (trackTimeOnPage (trackTimeOnPage w)).analytics.pageViews =
        earlier ++ [{ p with
          timeOnPage := ((trackTimeOnPage w).now : Int) - (w.analytics.startTime : Int) }] ∧
      (w.now ≤ (trackTimeOnPage w).now →
        (w.now : Int) - (w.analytics.startTime : Int) ≤
          ((trackTimeOnPage w).now : Int) - (w.analytics.startTime : Int)) ∧
      (trackTimeOnPage (trackTimeOnPage w)).analytics.interactions = w.analytics.interactions ∧
      (trackTimeOnPage (trackTimeOnPage w)).analytics.themeChanges = w.analytics.themeChanges ∧
      (trackTimeOnPage w).analytics.interactions = w.analytics.interactions ∧
      (trackTimeOnPage w).analytics.themeChanges = w.analytics.themeChanges) ∧
    (w.analytics.pageViews = [] → trackTimeOnPage w = w) := by
  constructor
  · intro earlier p h
    have h1 := trackTimeOnPage_some w earlier p h
    have h2 := trackTimeOnPage_some (trackTimeOnPage w) earlier
      { p with timeOnPage := (w.now : Int) - (w.analytics.startTime : Int) } (by rw [h1])
    refine ⟨by rw [h1], by rw [h2, h1], ?_, by rw [h2, h1], by rw [h2, h1], by rw [h1],
      by rw [h1]⟩
    intro hle
    omega
  · intro h
    unfold trackTimeOnPage
    rw [h]

theorem trackTimeOnPage_spec_witness :
    ((trackTimeOnPage viewedWorld).analytics.pageViews =
        [] ++ [{ timestamp := 1000, url := "https://example.org/".toList, path := "/".toList,
                 title := "Home".toList, referrer := "direct".toList,
                 timeOnPage := (viewedWorld.now : Int) - (viewedWorld.analytics.startTime : Int) }] ∧
      (viewedWorld.now ≤ (trackTimeOnPage viewedWorld).now →
        (viewedWorld.now : Int) - (viewedWorld.analytics.startTime : Int) ≤
          ((trackTimeOnPage viewedWorld).now : Int) -
            (viewedWorld.analytics.startTime : Int))) ∧
    trackTimeOnPage freshWorld = freshWorld :=
  ⟨⟨((trackTimeOnPage_spec viewedWorld).1 []
      { timestamp := 1000, url := "https://example.org/".toList, path := "/".toList,
        title := "Home".toList, referrer := "direct".toList, timeOnPage := 0 } rfl).1,
    ((trackTimeOnPage_spec viewedWorld).1 []
      { timestamp := 1000, url := "https://example.org/".toList, path := "/".toList,
        title := "Home".toList, referrer := "direct".toList, timeOnPage := 0 } rfl).2.2.1⟩,
    (trackTimeOnPage_spec freshWorld).2 rfl⟩

/-! ## Reading the analytics back -/

theorem parseOr_failure (parse : Str → Option Json) (fallback : Json) (text : Str)
    (h1 : text ≠ []) (h2 : parse text = none) : parseOr parse fallback (some text) = none := by
  cases text with
  | nil => exact absurd rfl h1
  | cons c cs => exact h2

theorem getAnalyticsDataWith_failure (parse : Str → Option Json) (w : World)
    (h : parseOr parse .null
          (getCookie (documentCookie w.cookies) "analytics_data".toList) = none ∨
        parseOr parse (.arr [])
          (getCookie (documentCookie w.cookies) "analytics_interactions".toList) = none ∨
        parseOr parse (.arr [])
          (getCookie (documentCookie w.cookies) "analytics_theme_changes".toList) = none) :
    getAnalyticsDataWith parse w = emptyResult := by
  unfold getAnalyticsDataWith
  rcases h with h | h | h
  · simp only [h]
  · simp only [h]
    split <;> simp_all
  · simp only [h]
    split <;> simp_all

/-- C7: for every cookie state, `getAnalyticsData()` returns a result (it never
throws), and whenever the deserializing of any one of the three cookies
(`analytics_data`, `analytics_interactions`, `analytics_theme_changes`) fails,
that is `JSON.parse` throws on the text read for it, the result is exactly
`data: null, interactions: [], themeChanges: []`; when no parse fails, every
category is the parsed value of its cookie, or its default for a cookie that is
absent or empty. So no result mixes parsed categories with categories emptied
by a failure. This holds for every behaviour of `JSON.parse`. -/
theorem getAnalyticsData_all_or_nothing (parse : Str → Option Json) (w : World) :
    (∀ name text : Str,
      (name = "analytics_data".toList ∨ name = "analytics_interactions".toList ∨
        name = "analytics_theme_changes".toList) →
      getCookie (documentCookie w.cookies) name = some text → text ≠ [] →
      parse text = none →
      getAnalyticsDataWith parse w = emptyResult) ∧
    (∀ d i t : Json,
      parseOr parse .null
          (getCookie (documentCookie w.cookies) "analytics_data".toList) = some d →
      parseOr parse (.arr [])
          (getCookie (documentCookie w.cookies) "analytics_interactions".toList) = some i →
      parseOr parse (.arr [])
          (getCookie (documentCookie w.cookies) "analytics_theme_changes".toList) = some t →
      getAnalyticsDataWith parse w = ⟨d, i, t⟩) ∧
    getAnalyticsData w = getAnalyticsDataWith jsonParse w := by
  refine ⟨?_, ?_, rfl⟩
  · intro name text hname hget hne hparse
    apply getAnalyticsDataWith_failure
    rcases hname with rfl | rfl | rfl
    · exact Or.inl (by rw [hget]; exact parseOr_failure parse _ text hne hparse)
    · exact Or.inr (Or.inl (by rw [hget]; exact parseOr_failure parse _ text hne hparse))
    · exact Or.inr (Or.inr (by rw [hget]; exact parseOr_failure parse _ text hne hparse))
  · intro d i t hd hi ht
    unfold getAnalyticsDataWith
    simp only [hd, hi, ht]

theorem getAnalyticsData_all_or_nothing_witness :
    getCookie (documentCookie brokenCookieWorld.cookies) "analytics_data".toList =
      some ['\x7b', '\x7d'] ∧
    jsonParse ['\x7b', '\x7d'] = some (.obj []) ∧
    getCookie (documentCookie brokenCookieWorld.cookies) "analytics_interactions".toList =
      some ['[', '\x7b'] ∧
    jsonParse ['[', '\x7b'] = none ∧
    getAnalyticsData brokenCookieWorld = emptyResult :=
  ⟨rfl, rfl, rfl, rfl,
    (getAnalyticsData_all_or_nothing jsonParse brokenCookieWorld).1
      "analytics_interactions".toList ['[', '\x7b'] (Or.inr (Or.inl rfl)) rfl (by decide) rfl⟩

/-! ## The scroll listener -/

/-! ### Rounding to a double keeps a bound -/

/-- The loop finds the highest bit of a number that is at most its fuel. -/
theorem log2Loop_spec (fuel n : Nat) (h1 : 1 ≤ n) (h2 : n ≤ fuel) :
    2 ^ log2Loop fuel n ≤ n ∧ n < 2 ^ (log2Loop fuel n + 1) := by
  induction fuel generalizing n with
  | zero => omega
  | succ f ih =>
    rw [log2Loop]
    by_cases hn : n < 2
    · rw [if_pos hn]
      simp only [pow_zero, zero_add, pow_one]
      omega
    · rw [if_neg hn]
      obtain ⟨ha, hb⟩ := ih (n / 2) (by omega) (by omega)
      rw [pow_succ] at hb ⊢
      rw [pow_succ (n := log2Loop f (n / 2) + 1)]
      omega

/-- The highest bit of a positive number. -/
theorem log2_spec (n : Nat) (h : 1 ≤ n) : 2 ^ log2 n ≤ n ∧ n < 2 ^ (log2 n + 1) :=
  log2Loop_spec n n h (le_refl n)

/-- The computed logarithm of a quotient below `2 ^ (k + 1)` is at most `k`. -/
theorem floorLog2_le (a b k : Nat) (ha : 0 < a) (hb : 0 < b) (h : a < 2 ^ (k + 1) * b) :
    floorLog2 a b ≤ (k : Int) := by
  obtain ⟨ha1, _⟩ := log2_spec a ha
  obtain ⟨_, hb2⟩ := log2_spec b hb
  have hlt : 2 ^ log2 a < 2 ^ (k + 1 + (log2 b + 1)) := by
    rw [pow_add]
    calc 2 ^ log2 a ≤ a := ha1
      _ < 2 ^ (k + 1) * b := h
      _ < 2 ^ (k + 1) * 2 ^ (log2 b + 1) :=
        Nat.mul_lt_mul_of_pos_left hb2 (by positivity)
  have hle : log2 a < k + 1 + (log2 b + 1) :=
    (Nat.pow_lt_pow_iff_right (by norm_num)).mp hlt
  unfold floorLog2
  split_ifs with hc
  · omega
  · by_contra hgt
    have e1 : ((log2 b : Int) - (log2 a : Int)).toNat = 0 := by omega
    have e2 : ((log2 a : Int) - (log2 b : Int)).toNat = k + 1 := by omega
    rw [e1, e2] at hc
    apply hc
    rw [pow_zero, mul_one, mul_comm]
    exact h

/-- Rounding to the nearest integer does not pass an integer bound. -/
theorem roundHalfEven_le (a b K : Nat) (hb : 0 < b) (h : a ≤ K * b) :
    roundHalfEven a b ≤ K := by
  have hdiv : a / b ≤ K := Nat.div_le_of_le_mul (by rw [mul_comm]; exact h)
  have hmod := Nat.div_add_mod a b
  have hstrict : 0 < a % b → a / b < K := by
    intro hr
    by_contra hge
    have hge' : K ≤ a / b := Nat.le_of_not_lt hge
    have : b * K ≤ b * (a / b) := Nat.mul_le_mul_left b hge'
    rw [mul_comm K b] at h
    omega
  unfold roundHalfEven
  split_ifs with h1 h2 h3
  · exact hdiv
  · have := hstrict (by omega)
    omega
  · exact hdiv
  · have := hstrict (by omega)
    omega

/-- Rounding a positive quotient that is at most the integer `c`, itself below
`2 ^ 53`, gives a double that is at most `c`. -/
theorem roundPositive_le (a b c : Nat) (ha : 0 < a) (hb : 0 < b) (h : a ≤ c * b)
    (hc : c < 2 ^ 53) :
    ∃ m u, roundPositive a b = some (m, u) ∧ u ≤ 0 ∧ m ≤ c * 2 ^ (-u).toNat := by
  have hlog : floorLog2 a b ≤ (52 : Nat) := by
    apply floorLog2_le a b 52 ha hb
    calc a ≤ c * b := h
      _ < 2 ^ (52 + 1) * b := Nat.mul_lt_mul_of_pos_right hc hb
  have hu : lastPlace a b ≤ 0 := by
    unfold lastPlace
    simp only [Nat.cast_ofNat] at hlog
    omega
  have hu0 : (lastPlace a b).toNat = 0 := by omega
  have hm : roundHalfEven (a * 2 ^ (-lastPlace a b).toNat) (b * 2 ^ (lastPlace a b).toNat) ≤
      c * 2 ^ (-lastPlace a b).toNat := by
    apply roundHalfEven_le
    · rw [hu0, pow_zero, mul_one]
      exact hb
    · rw [hu0, pow_zero, mul_one]
      calc a * 2 ^ (-lastPlace a b).toNat ≤ c * b * 2 ^ (-lastPlace a b).toNat :=
            Nat.mul_le_mul_right _ h
        _ = c * 2 ^ (-lastPlace a b).toNat * b := by ring
  refine ⟨_, lastPlace a b, ?_, hu, hm⟩
  unfold roundPositive
  rw [if_neg]
  intro hov
  rcases hov with hov | hov
  · omega
  · omega

/-- Rounding a quotient between zero and the integer `c`, below `2 ^ 53`, gives
a finite double between zero and `c`. -/
theorem roundToDouble_le (num : Int) (den c : Nat) (h0 : 0 ≤ num) (hd : 0 < den)
    (h : num ≤ (c : Int) * (den : Int)) (hc : c < 2 ^ 53) :
    ∃ (m : Int) (u : Int), roundToDouble num den = .finite m u ∧ 0 ≤ m ∧ u ≤ 0 ∧
      m ≤ (c : Int) * 2 ^ (-u).toNat := by
  unfold roundToDouble
  by_cases hz : num = 0
  · rw [if_pos hz]
    refine ⟨0, 0, rfl, le_refl _, le_refl _, ?_⟩
    positivity
  · rw [if_neg hz]
    have hpos : 0 < num := lt_of_le_of_ne h0 (Ne.symm hz)
    have ha : 0 < num.natAbs := Int.natAbs_pos.mpr hz
    have hle : num.natAbs ≤ c * den := by
      have : (num.natAbs : Int) = num := Int.natAbs_of_nonneg h0
      have h' : (num.natAbs : Int) ≤ ((c * den : Nat) : Int) := by
        rw [this]
        push_cast
        exact h
      exact_mod_cast h'
    obtain ⟨m, u, hr, hu, hm⟩ := roundPositive_le num.natAbs den c ha hd hle hc
    rw [hr]
    refine ⟨(m : Int), u, by simp [hpos], by positivity, hu, ?_⟩
    exact_mod_cast hm

/-- `Math.round` of a value between zero and the integer `c` lies between zero
and `c`. -/
theorem roundQuotient_bounds (m : Int) (k c : Nat) (h0 : 0 ≤ m) (h : m ≤ (c : Int) * 2 ^ k) :
    0 ≤ roundQuotient m (2 ^ k) ∧ roundQuotient m (2 ^ k) ≤ c := by
  have hD : (0 : Int) < 2 ^ k := by positivity
  unfold roundQuotient
  rw [Int.fdiv_eq_ediv _ (by omega)]
  constructor
  · exact Int.ediv_nonneg (by omega) (by omega)
  · have : (2 * m + 2 ^ k) / (2 * 2 ^ k) < (c : Int) + 1 := by
      apply Int.ediv_lt_of_lt_mul (by omega)
      nlinarith
    omega

/-- Inside the scrollable range the listener computes a finite percentage
between 0 and 100. -/
theorem scrollPercent_bounds (e : ScrollEvent) (h : e.InRange) :
    ∃ p : Int, scrollPercent e = .finite p ∧ 0 ≤ p ∧ p ≤ 100 := by
  obtain ⟨hr, hd, hy0, hy1⟩ := h
  have hrange : ((e.scrollHeight - e.innerHeight).natAbs : Int) =
      e.scrollHeight - e.innerHeight := Int.natAbs_of_nonneg (le_of_lt hr)
  have hne : ¬ (e.scrollHeight - e.innerHeight = 0) := by omega
  obtain ⟨m1, u1, hq, hm0, hu1, hm1⟩ := roundToDouble_le e.scrollYNum
    (e.scrollYDen * (e.scrollHeight - e.innerHeight).natAbs) 1 hy0
    (Nat.mul_pos hd (by omega)) (by push_cast; rw [abs_of_pos hr]; omega) (by norm_num)
  have hu1' : u1.toNat = 0 := by omega
  obtain ⟨m2, u2, hx, hm20, hu2, hm2⟩ := roundToDouble_le (m1 * 100 * 2 ^ u1.toNat)
    (2 ^ (-u1).toNat) 100 (by rw [hu1']; positivity) (by positivity)
    (by
      rw [hu1', pow_zero, mul_one]
      push_cast
      push_cast at hm1
      nlinarith) (by norm_num)
  have hu2' : u2.toNat = 0 := by omega
  refine ⟨roundQuotient (m2 * 2 ^ u2.toNat) (2 ^ (-u2).toNat), ?_, ?_⟩
  · unfold scrollPercent divideByRange
    rw [if_neg hne, if_pos hr, hq]
    simp only [times100, hx, mathRound]
  · rw [hu2', pow_zero, mul_one]
    have := roundQuotient_bounds m2 (-u2).toNat 100 hm20 (by exact_mod_cast hm2)
    exact_mod_cast this

/-- The rounded percentage of an event in range lies between 0 and 100. -/
theorem percent_bounds (e : ScrollEvent) (h : e.InRange) : 0 ≤ e.percent ∧ e.percent ≤ 100 := by
  obtain ⟨p, hp, h0, h1⟩ := scrollPercent_bounds e h
  unfold ScrollEvent.percent
  rw [hp]
  exact ⟨h0, h1⟩

/-- The percentage of an event in range is the finite number `percent`. -/
theorem scrollPercent_inRange (e : ScrollEvent) (h : e.InRange) :
    scrollPercent e = .finite e.percent := by
  obtain ⟨p, hp, _, _⟩ := scrollPercent_bounds e h
  unfold ScrollEvent.percent
  rw [hp]

/-! ### The listener -/

/-- One event in range, handled with the highest percentage so far at `m`. -/
theorem scrollListener_inRange (e : ScrollEvent) (w : World) (m : Int) (h : e.InRange)
    (hm : w.maxScroll = .finite m) :
    (scrollListener e w).maxScroll = .finite (max m e.percent) ∧
    (scrollListener e w).analytics.interactions =
      w.analytics.interactions ++
        (if m < e.percent ∧ e.percent % 25 = 0 then
          [newInteraction "scroll".toList none (some (scrollDetails (.finite e.percent)))
            { w with maxScroll := .finite e.percent }]
        else []) := by
  unfold scrollListener
  rw [scrollPercent_inRange e h, hm]
  by_cases hgt : m < e.percent
  · have h1 : Percent.gt (.finite e.percent) (.finite m) = true := by
      simp [Percent.gt, hgt]
    rw [if_pos h1, max_eq_right (le_of_lt hgt)]
    by_cases h25 : e.percent % 25 = 0
    · have h2 : Percent.isMultipleOf25 (.finite e.percent) = true := by
        simp [Percent.isMultipleOf25, h25]
      rw [if_pos h2, if_pos ⟨hgt, h25⟩, trackInteraction_maxScroll, trackInteraction_analytics]
      exact ⟨rfl, rfl⟩
    · have h2 : ¬ Percent.isMultipleOf25 (.finite e.percent) = true := by
        simp [Percent.isMultipleOf25, h25]
      rw [if_neg h2, if_neg (fun hc => h25 hc.2), List.append_nil]
      exact ⟨rfl, rfl⟩
  · have h1 : ¬ Percent.gt (.finite e.percent) (.finite m) = true := by
      simp [Percent.gt, hgt]
    rw [if_neg h1, if_neg (fun hc => hgt hc.1), List.append_nil, max_eq_left (not_lt.mp hgt)]
    exact ⟨hm, rfl⟩

/-- The listener with the single highest value `m` logs what the specification
describes with the list `seen` of all values so far, when `m` is the greatest
of them. -/
theorem scrollAll_inRange (es : List ScrollEvent) (w : World) (m : Int) (seen : List Int)
    (hes : ∀ e ∈ es, e.InRange) (hm : w.maxScroll = .finite m)
    (hseen : ∀ p : Int, (∀ q ∈ seen, q < p) ↔ m < p) :
    ∃ recs : List Interaction,
      (scrollAll es w).analytics.interactions = w.analytics.interactions ++ recs ∧
      (∀ r ∈ recs, r.type = "scroll".toList) ∧
      recs.map Interaction.details =
        (specLoggedDepths seen (es.map ScrollEvent.percent)).map
          (fun d => scrollDetails (.finite d)) := by
  induction es generalizing w m seen with
  | nil => exact ⟨[], by simp [scrollAll], by simp, by simp [specLoggedDepths]⟩
  | cons e es ih =>
    have he : e.InRange := hes e (List.mem_cons_self e es)
    have hes' : ∀ e' ∈ es, e'.InRange := fun e' h' => hes e' (List.mem_cons_of_mem e h')
    obtain ⟨hmax, hlog⟩ := scrollListener_inRange e w m he hm
    have hseen' : ∀ p : Int, (∀ q ∈ seen ++ [e.percent], q < p) ↔ max m e.percent < p := by
      intro p
      simp only [List.mem_append, List.mem_singleton]
      constructor
      · intro h
        have h1 := (hseen p).mp (fun q hq => h q (Or.inl hq))
        have h2 := h e.percent (Or.inr rfl)
        exact max_lt h1 h2
      · intro h q hq
        rcases hq with hq | hq
        · exact (hseen p).mpr (lt_of_le_of_lt (le_max_left _ _) h) q hq
        · rw [hq]
          exact lt_of_le_of_lt (le_max_right _ _) h
    obtain ⟨recs, hrecs, htype, hdet⟩ := ih (scrollListener e w) (max m e.percent)
      (seen ++ [e.percent]) hes' hmax hseen'
    simp only [scrollAll, List.map_cons, specLoggedDepths]
    rw [hrecs, hlog]
    by_cases hc : m < e.percent ∧ e.percent % 25 = 0
    · have hc' : (∀ q ∈ seen, q < e.percent) ∧ e.percent % 25 = 0 :=
        ⟨(hseen e.percent).mpr hc.1, hc.2⟩
      rw [if_pos hc, if_pos hc']
      refine ⟨newInteraction "scroll".toList none (some (scrollDetails (.finite e.percent)))
        { w with maxScroll := .finite e.percent } :: recs, by simp, ?_, ?_⟩
      · intro r hr
        rcases List.mem_cons.mp hr with hr | hr
        · rw [hr]
          rfl
        · exact htype r hr
      · simp only [List.map_cons, List.singleton_append, hdet]
        rfl
    · have hc' : ¬ ((∀ q ∈ seen, q < e.percent) ∧ e.percent % 25 = 0) :=
        fun h' => hc ⟨(hseen e.percent).mp h'.1, h'.2⟩
      rw [if_neg hc, if_neg hc', List.append_nil, List.nil_append]
      exact ⟨recs, rfl, htype, hdet⟩

theorem specLoggedDepths_above (seen ps : List Int) :
    ∀ d ∈ specLoggedDepths seen ps, (∀ q ∈ seen, q < d) ∧ d % 25 = 0 ∧ d ∈ ps := by
  induction ps generalizing seen with
  | nil => simp [specLoggedDepths]
  | cons p ps ih =>
    intro d hd
    simp only [specLoggedDepths, List.mem_append] at hd
    rcases hd with hd | hd
    · split_ifs at hd with hc
      · simp only [List.mem_singleton] at hd
        subst hd
        exact ⟨hc.1, hc.2, List.mem_cons_self _ _⟩
      · simp at hd
    · obtain ⟨h1, h2, h3⟩ := ih (seen ++ [p]) d hd
      exact ⟨fun q hq => h1 q (List.mem_append_left _ hq), h2, List.mem_cons_of_mem _ h3⟩

theorem specLoggedDepths_increasing (seen ps : List Int) :
    (specLoggedDepths seen ps).Pairwise (fun a b => a < b) := by
  induction ps generalizing seen with
  | nil => simp [specLoggedDepths]
  | cons p ps ih =>
    simp only [specLoggedDepths]
    split_ifs with hc
    · simp only [List.singleton_append, List.pairwise_cons]
      refine ⟨?_, ih _⟩
      intro d hd
      exact (specLoggedDepths_above (seen ++ [p]) ps d hd).1 p (by simp)
    · simpa using ih _

/-- C10: for every sequence of scroll events with the scroll position inside
the document's scrollable range (`0 <= scrollY <= scrollHeight - innerHeight`,
the range positive), the scroll listener logs a `scroll` interaction for an
event exactly when its rounded scroll percentage, computed in double-precision
arithmetic as the listener does, is a new highest value and a multiple of 25,
and logs nothing else; hence every logged depth is one of 25, 50, 75, 100, the
logged depths are strictly increasing, and each depth is logged at most once in
the life of the page. -/
theorem scroll_depths (es : List ScrollEvent) (w : World) (hes : ∀ e ∈ es, e.InRange) :
    (∃ recs : List Interaction,
      (scrollAll es (setupAnalyticsListeners w)).analytics.interactions =
        w.analytics.interactions ++ recs ∧
      (∀ r ∈ recs, r.type = "scroll".toList) ∧
      recs.map Interaction.details =
        (specLoggedDepths [0] (es.map ScrollEvent.percent)).map
          (fun d => .obj [("depth".toList, .num (numberToString d))])) ∧
    (∀ d ∈ specLoggedDepths [0] (es.map ScrollEvent.percent),
      d = 25 ∨ d = 50 ∨ d = 75 ∨ d = 100) ∧
    (specLoggedDepths [0] (es.map ScrollEvent.percent)).Pairwise (fun a b => a < b) ∧
    (specLoggedDepths [0] (es.map ScrollEvent.percent)).Nodup := by
  have hinc := specLoggedDepths_increasing [0] (es.map ScrollEvent.percent)
  refine ⟨?_, ?_, hinc, ?_⟩
  · exact scrollAll_inRange es (setupAnalyticsListeners w) 0 [0] hes rfl (by simp)
  · intro d hd
    obtain ⟨h1, h2, h3⟩ := specLoggedDepths_above _ _ d hd
    have hpos : 0 < d := h1 0 (by simp)
    obtain ⟨e, he, rfl⟩ := List.mem_map.mp h3
    have := (percent_bounds e (hes e he)).2
    omega
  · exact hinc.imp (fun h => ne_of_lt h)

theorem scroll_depths_witness :
    (∀ e ∈ sampleScrolls, e.InRange) ∧
    specLoggedDepths [0] (sampleScrolls.map ScrollEvent.percent) = [25, 100] ∧
    ((scrollAll sampleScrolls (setupAnalyticsListeners freshWorld)).analytics.interactions.map
      Interaction.details).map Json.stringify =
        ["\x7b\"depth\":25\x7d".toList, "\x7b\"depth\":100\x7d".toList] ∧
    (∀ d ∈ specLoggedDepths [0] (sampleScrolls.map ScrollEvent.percent),
      d = 25 ∨ d = 50 ∨ d = 75 ∨ d = 100) :=
  ⟨by decide, by decide, by decide, (scroll_depths sampleScrolls freshWorld (by decide)).2.1⟩

/-! ## A failure inside the flush -/

theorem flushBody_fault (w : World) (s : FlushStep) (h : w.flushFault = some s) :
    (flushBody w).2 = true ∧
    (flushBody w).1.cookies = writeAll ((flushWrites w).take (completedWrites s)) w.cookies := by
  unfold flushBody
  cases s <;> simp [h, writeAll, flushWrites, completedWrites]

theorem saveAnalyticsToCookie_console_fault (w : World) (s : FlushStep)
    (h : w.flushFault = some s) :
    (saveAnalyticsToCookie w).console = w.console ++ [saveErrorLine] := by
  unfold saveAnalyticsToCookie
  rw [(flushBody_fault w s h).1, if_pos rfl]
  simp only [flushBody_console]
  rfl

theorem getAnalyticsDataWith_congr (parse : Str → Option Json) (w1 w2 : World)
    (h : w1.cookies = w2.cookies) :
    getAnalyticsDataWith parse w1 = getAnalyticsDataWith parse w2 := by
  unfold getAnalyticsDataWith
  rw [h]

theorem getAnalyticsDataWith_absent (parse : Str → Option Json) (w : World)
    (h1 : getCookie (documentCookie w.cookies) "analytics_data".toList = none)
    (h2 : getCookie (documentCookie w.cookies) "analytics_interactions".toList = none)
    (h3 : getCookie (documentCookie w.cookies) "analytics_theme_changes".toList = none) :
    getAnalyticsDataWith parse w = emptyResult := by
  unfold getAnalyticsDataWith
  rw [h1, h2, h3]
  rfl

set_option maxRecDepth 100000 in
/-- C6, as stated, fails: on a fresh page without cookies, let the
serialization of the interaction list throw inside the flush that
`trackInteraction` triggers. The exception is caught (one line on the console,
the record stays in the log), but `analytics_data` was written before the
failure, so `getAnalyticsData()` afterwards returns `data` not `null`. -/
theorem flush_failure_counterexample :
    faultyWorld.flushFault = some .serializeInteractions ∧
    (trackInteraction "click".toList none none faultyWorld).console = [saveErrorLine] ∧
    (trackInteraction "click".toList none none faultyWorld).analytics.interactions.length = 1 ∧
    (getAnalyticsData (trackInteraction "click".toList none none faultyWorld)).data.stringify =
      ("\x7b\"userId\":\"user_1000_xyz\",\"sessionId\":\"session_1000_abc\"," ++
        "\"pageViewCount\":0,\"interactionCount\":1,\"themeChangeCount\":0," ++
        "\"lastUpdate\":1007,\"deviceInfo\":\x7b\"platform\":\"Linux\"\x7d," ++
        "\"browserInfo\":\x7b\"browser\":\"Firefox\"\x7d,\"screenInfo\":\x7b\"width\":1280\x7d," ++
        "\"timezone\":\"UTC\",\"language\":\"en\"\x7d").toList ∧
    (getAnalyticsData (trackInteraction "click".toList none none faultyWorld)).data.stringify ≠
      Json.null.stringify := by
  decide

theorem length_setLastTimeOnPage (value : Int) (l : List PageView) :
    (setLastTimeOnPage value l).length = l.length := by
  induction l with
  | nil => rfl
  | cons a rest ih =>
    cases rest with
    | nil => rfl
    | cons b tl =>
      simp only [setLastTimeOnPage, List.length_cons] at ih ⊢
      rw [ih]

/-- C6 (amended): for every tracker state, if a serialization or cookie-write
failure occurs at any point inside the flush, then the flush and the tracking
operation that triggered it (`trackInteraction`, `trackThemeChange`,
`trackPageView`, `trackTimeOnPage`) return normally: the exception is caught, a
line goes to the console, the in-memory log keeps what was appended. The cookies
written before the point of failure hold their new values and the others are
as they were before the flush, and a subsequent `getAnalyticsData()` returns
what those cookies hold: when the failure precedes the first write, the same
result as before the flush, which is `data = null, interactions = [],
themeChanges = []` when none of the three cookies was stored. -/
theorem flush_failure (w : World) (s : FlushStep) (h : w.flushFault = some s) :
    (flushBody w).2 = true ∧
    (saveAnalyticsToCookie w).analytics = w.analytics ∧
    (saveAnalyticsToCookie w).console = w.console ++ [saveErrorLine] ∧
    (saveAnalyticsToCookie w).cookies =
      writeAll ((flushWrites w).take (completedWrites s)) w.cookies ∧
    (∀ (type : Str) (element : Option Element) (details : Option Json),
      (trackInteraction type element details w).analytics.interactions =
        w.analytics.interactions ++ [newInteraction type element details w] ∧
      (trackInteraction type element details w).console = w.console ++ [saveErrorLine]) ∧
    (∀ a b : Str,
      (trackThemeChange a b w).analytics.themeChanges =
        w.analytics.themeChanges ++
          [{ timestamp := w.now, fromTheme := a, toTheme := b, page := w.pathname }] ∧
      (trackThemeChange a b w).console = w.console ++ [saveErrorLine]) ∧
    ((trackPageView w).analytics.pageViews.length = w.analytics.pageViews.length + 1 ∧
      (trackPageView w).console = w.console ++ [saveErrorLine]) ∧
    (w.analytics.pageViews ≠ [] →
      (trackTimeOnPage w).analytics.pageViews.length = w.analytics.pageViews.length ∧
      (trackTimeOnPage w).console = w.console ++ [saveErrorLine]) ∧
    (completedWrites s = 0 →
      getAnalyticsData (saveAnalyticsToCookie w) = getAnalyticsData w ∧
      (getCookie (documentCookie w.cookies) "analytics_data".toList = none →
        getCookie (documentCookie w.cookies) "analytics_interactions".toList = none →
        getCookie (documentCookie w.cookies) "analytics_theme_changes".toList = none →
        getAnalyticsData (saveAnalyticsToCookie w) = emptyResult)) := by
  have hc : (saveAnalyticsToCookie w).cookies =
      writeAll ((flushWrites w).take (completedWrites s)) w.cookies := by
    rw [saveAnalyticsToCookie_cookies, (flushBody_fault w s h).2]
  refine ⟨(flushBody_fault w s h).1, saveAnalyticsToCookie_analytics w,
    saveAnalyticsToCookie_console_fault w s h, hc, ?_, ?_, ?_, ?_, ?_⟩
  · intro type element details
    refine ⟨by rw [trackInteraction_analytics], ?_⟩
    unfold trackInteraction
    rw [saveAnalyticsToCookie_console_fault _ s (by simpa using h)]
    rfl
  · intro a b
    refine ⟨by rw [trackThemeChange_analytics], ?_⟩
    unfold trackThemeChange
    rw [saveAnalyticsToCookie_console_fault _ s (by simpa using h)]
    rfl
  · constructor
    · unfold trackPageView
      simp only [saveAnalyticsToCookie_analytics, tick_analytics, List.length_append,
        List.length_singleton]
    · unfold trackPageView
      rw [saveAnalyticsToCookie_console_fault _ s (by simpa using h)]
      rfl
  · intro hne
    unfold trackTimeOnPage
    cases hp : w.analytics.pageViews with
    | nil => exact absurd hp hne
    | cons a rest =>
      simp only
      constructor
      · simp only [saveAnalyticsToCookie_analytics, tick_analytics, hp]
        exact length_setLastTimeOnPage _ _
      · rw [saveAnalyticsToCookie_console_fault _ s (by simpa using h)]
        rfl
  · intro h0
    have hsame : (saveAnalyticsToCookie w).cookies = w.cookies := by
      rw [hc, h0]
      rfl
    have hget : getAnalyticsData (saveAnalyticsToCookie w) = getAnalyticsData w :=
      getAnalyticsDataWith_congr jsonParse _ _ hsame
    refine ⟨hget, ?_⟩
    intro h1 h2 h3
    rw [hget]
    exact getAnalyticsDataWith_absent jsonParse w h1 h2 h3

theorem flush_failure_witness :
    ({ freshWorld with flushFault := some FlushStep.writeData } : World).flushFault =
      some FlushStep.writeData ∧
    (saveAnalyticsToCookie
      { freshWorld with flushFault := some FlushStep.writeData }).console = [saveErrorLine] ∧
    getAnalyticsData
      (saveAnalyticsToCookie { freshWorld with flushFault := some FlushStep.writeData }) =
        emptyResult :=
  ⟨rfl,
    (flush_failure { freshWorld with flushFault := some FlushStep.writeData }
      FlushStep.writeData rfl).2.2.1,
    ((flush_failure { freshWorld with flushFault := some FlushStep.writeData }
      FlushStep.writeData rfl).2.2.2.2.2.2.2.2 rfl).2 rfl rfl rfl⟩

/-! ## `JSON.parse` inverts `JSON.stringify` -/

/-! ### Strings -/

theorem hex4_control : ∀ n : Nat, n < 32 →
    hex4 '0' '0' (hexDigit (n / 16)) (hexDigit (n % 16)) = some n := by
  decide

theorem readStringItem_close (rest : Str) : readStringItem ('"' :: rest) = .close rest := by
  simp [readStringItem]

theorem readStringItem_escapeChar (c : Char) (tail : Str) :
    readStringItem (escapeChar c ++ tail) = .char c tail := by
  unfold escapeChar
  split_ifs with h1 h2 h3 h4 h5 h6 h7 h8
  · subst h1
    simp [readStringItem, unescape]
  · subst h2
    simp [readStringItem, unescape]
  · subst h3
    simp [readStringItem, unescape]
  · subst h4
    simp [readStringItem, unescape]
  · subst h5
    simp [readStringItem, unescape]
  · subst h6
    simp [readStringItem, unescape]
  · subst h7
    simp [readStringItem, unescape]
  · have hx := hex4_control c.toNat h8
    have hlt1 : ¬ (0xD800 ≤ c.toNat ∧ c.toNat < 0xDC00) := by omega
    have hlt2 : ¬ (0xDC00 ≤ c.toNat ∧ c.toNat < 0xE000) := by omega
    simp only [List.cons_append, List.nil_append, readStringItem]
    simp only [show ¬ ('\\' = '"') by decide, if_false, if_true, hx, hlt1, hlt2,
      Char.ofNat_toNat]
  · simp [readStringItem, h1, h2, h8]

theorem parseStringLoop_escape (s rest : Str) (fuel : Nat) (h : s.length < fuel) :
    parseStringLoop fuel (escape s ++ '"' :: rest) = some (s, rest) := by
  induction s generalizing fuel with
  | nil =>
    cases fuel with
    | zero => simp at h
    | succ f => simp [parseStringLoop, escape, readStringItem_close]
  | cons c cs ih =>
    cases fuel with
    | zero => simp at h
    | succ f =>
      have hf : cs.length < f := by
        simp only [List.length_cons] at h
        omega
      rw [parseStringLoop]
      simp only [escape, List.append_assoc, readStringItem_escapeChar, ih f hf]

theorem length_escapeChar (c : Char) : 1 ≤ (escapeChar c).length := by
  unfold escapeChar
  split_ifs <;> simp

theorem length_escape (s : Str) : s.length ≤ (escape s).length := by
  induction s with
  | nil => simp [escape]
  | cons c cs ih =>
    have := length_escapeChar c
    simp only [escape, List.length_cons, List.length_append]
    omega

theorem parseStringBody_escape (s rest : Str) :
    parseStringBody (escape s ++ '"' :: rest) = some (s, rest) := by
  unfold parseStringBody
  apply parseStringLoop_escape
  have := length_escape s
  simp only [List.length_append, List.length_cons]
  omega

/-! ### Numerals -/

theorem numStop_of_terminated (rest : Str) (h : Terminated rest) : NumStop rest := by
  intro c r hr
  rcases h with h | ⟨c', r', h, hc⟩
  · rw [h] at hr
    simp at hr
  · rw [h] at hr
    simp only [List.cons.injEq] at hr
    rw [← hr.1]
    rcases hc with hc | hc | hc <;> subst hc <;> decide

theorem scanDigits_append (s rest : Str) (h : NumStop rest) :
    scanDigits (s ++ rest) = ((scanDigits s).1, (scanDigits s).2 ++ rest) := by
  induction s with
  | nil =>
    cases rest with
    | nil => rfl
    | cons c r =>
      have := (h c r rfl).1
      simp [scanDigits, this]
  | cons c cs ih =>
    rw [List.cons_append]
    by_cases hd : c.isDigit = true
    · simp only [scanDigits, hd, if_true, ih]
    · simp only [scanDigits, hd, Bool.false_eq_true, if_false, List.cons_append]

theorem scanInt_append (s rest t u : Str) (h : NumStop rest) (hs : scanInt s = some (t, u)) :
    scanInt (s ++ rest) = some (t, u ++ rest) := by
  cases s with
  | nil => simp [scanInt] at hs
  | cons c cs =>
    rw [List.cons_append]
    by_cases h1 : c = '0'
    · simp only [scanInt, h1, if_true, Option.some.injEq, Prod.mk.injEq] at hs ⊢
      exact ⟨hs.1, by rw [← hs.2]⟩
    · by_cases h2 : c.isDigit = true
      · simp only [scanInt, h1, h2, if_true, if_false, Option.some.injEq, Prod.mk.injEq] at hs ⊢
        rw [scanDigits_append cs rest h]
        exact ⟨hs.1, by rw [← hs.2]⟩
      · simp [scanInt, h1, h2] at hs

theorem scanFrac_append (s rest t u : Str) (h : NumStop rest) (hs : scanFrac s = some (t, u)) :
    scanFrac (s ++ rest) = some (t, u ++ rest) := by
  cases s with
  | nil =>
    simp only [scanFrac, Option.some.injEq, Prod.mk.injEq] at hs
    rw [← hs.1, ← hs.2]
    cases rest with
    | nil => rfl
    | cons c r =>
      have := (h c r rfl).2.1
      simp [scanFrac, this]
  | cons c cs =>
    rw [List.cons_append]
    by_cases h1 : c = '.'
    · by_cases h2 : (scanDigits cs).1 = []
      · simp [scanFrac, h1, h2] at hs
      · have h3 : ¬ (scanDigits (cs ++ rest)).1 = [] := by
          rw [scanDigits_append cs rest h]
          exact h2
        simp only [scanFrac, h1, h2, h3, if_true, if_false, Option.some.injEq,
          Prod.mk.injEq] at hs ⊢
        rw [scanDigits_append cs rest h]
        exact ⟨hs.1, by rw [← hs.2]⟩
    · simp only [scanFrac, h1, if_false, Option.some.injEq, Prod.mk.injEq] at hs ⊢
      exact ⟨hs.1, by rw [← hs.2]; rfl⟩

theorem scanExpDigits_append (pre s rest t u : Str) (h : NumStop rest)
    (hs : scanExpDigits pre s = some (t, u)) :
    scanExpDigits pre (s ++ rest) = some (t, u ++ rest) := by
  unfold scanExpDigits at hs ⊢
  by_cases h2 : (scanDigits s).1 = []
  · simp [h2] at hs
  · have h3 : ¬ (scanDigits (s ++ rest)).1 = [] := by
      rw [scanDigits_append s rest h]
      exact h2
    simp only [h2, h3, if_false, Option.some.injEq, Prod.mk.injEq] at hs ⊢
    rw [scanDigits_append s rest h]
    exact ⟨hs.1, by rw [← hs.2]⟩

theorem scanExp_append (s rest t u : Str) (h : NumStop rest) (hs : scanExp s = some (t, u)) :
    scanExp (s ++ rest) = some (t, u ++ rest) := by
  cases s with
  | nil =>
    simp only [scanExp, Option.some.injEq, Prod.mk.injEq] at hs
    rw [← hs.1, ← hs.2]
    cases rest with
    | nil => rfl
    | cons c r =>
      have h1 := (h c r rfl).2.2.1
      have h2 := (h c r rfl).2.2.2
      simp [scanExp, h1, h2]
  | cons c cs =>
    rw [List.cons_append]
    by_cases h1 : c = 'e' ∨ c = 'E'
    · cases cs with
      | nil => simp [scanExp, h1] at hs
      | cons d ds =>
        rw [List.cons_append]
        by_cases h2 : d = '+' ∨ d = '-'
        · simp only [scanExp, h1, h2, if_true] at hs ⊢
          exact scanExpDigits_append _ _ _ _ _ h hs
        · simp only [scanExp, h1, h2, if_true, if_false] at hs ⊢
          exact scanExpDigits_append _ (d :: ds) _ _ _ h hs
    · simp only [scanExp, h1, if_false, Option.some.injEq, Prod.mk.injEq] at hs ⊢
      exact ⟨hs.1, by rw [← hs.2]; rfl⟩

theorem scanUnsigned_append (s rest t u : Str) (h : NumStop rest)
    (hs : scanUnsigned s = some (t, u)) :
    scanUnsigned (s ++ rest) = some (t, u ++ rest) := by
  unfold scanUnsigned at hs ⊢
  cases hi : scanInt s with
  | none => simp [hi] at hs
  | some p =>
    obtain ⟨i, s1⟩ := p
    rw [hi] at hs
    rw [scanInt_append s rest i s1 h hi]
    simp only at hs ⊢
    cases hf : scanFrac s1 with
    | none => simp [hf] at hs
    | some q =>
      obtain ⟨f, s2⟩ := q
      rw [hf] at hs
      rw [scanFrac_append s1 rest f s2 h hf]
      simp only at hs ⊢
      cases he : scanExp s2 with
      | none => simp [he] at hs
      | some r =>
        obtain ⟨e, s3⟩ := r
        rw [he] at hs
        rw [scanExp_append s2 rest e s3 h he]
        simp only [Option.some.injEq, Prod.mk.injEq] at hs ⊢
        exact ⟨hs.1, by rw [← hs.2]⟩

theorem scanNumber_append (s rest : Str) (h : NumStop rest) (hs : IsNumeral s) :
    scanNumber (s ++ rest) = some (s, rest) := by
  unfold IsNumeral at hs
  cases s with
  | nil => simp [scanNumber] at hs
  | cons c cs =>
    simp only [scanNumber, List.cons_append] at hs ⊢
    split_ifs at hs ⊢ with h1
    · cases hu : scanUnsigned cs with
      | none => simp [hu] at hs
      | some p =>
        obtain ⟨t, u⟩ := p
        rw [hu] at hs
        simp only [Option.some.injEq, Prod.mk.injEq] at hs
        rw [scanUnsigned_append cs rest t u h hu]
        simp only [Option.some.injEq, Prod.mk.injEq]
        exact ⟨hs.1, by rw [hs.2]; rfl⟩
    · have := scanUnsigned_append (c :: cs) rest (c :: cs) [] h hs
      simpa using this

/-! ### The numeral of a non-negative integer -/

theorem digit_isDigit : ∀ d : Nat, d < 10 → (Char.ofNat (48 + d)).isDigit = true := by
  decide

theorem digit_ne_zero : ∀ d : Nat, d < 10 → d ≠ 0 → Char.ofNat (48 + d) ≠ '0' := by
  decide

/-- The digits `decimalAux` puts in front of its accumulator: not empty, all
digits, without a leading zero unless the number is zero. -/
theorem decimalAux_spec (fuel n : Nat) (acc : Str) (h : n < fuel) :
    ∃ d ds, decimalAux fuel n acc = d :: ds ++ acc ∧ d.isDigit = true ∧
      (∀ c ∈ ds, c.isDigit = true) ∧ (d = '0' → ds = []) := by
  induction fuel generalizing n acc with
  | zero => omega
  | succ f ih =>
    rw [decimalAux]
    by_cases hn : n < 10
    · rw [if_pos hn]
      refine ⟨Char.ofNat (48 + n), [], rfl, digit_isDigit n hn, by simp, fun _ => rfl⟩
    · rw [if_neg hn]
      have hlt : n / 10 < f := by omega
      obtain ⟨d, ds, heq, hd, hds, hz⟩ := ih (n / 10) (Char.ofNat (48 + n % 10) :: acc) hlt
      refine ⟨d, ds ++ [Char.ofNat (48 + n % 10)], by rw [heq]; simp, hd, ?_, ?_⟩
      · intro c hc
        rcases List.mem_append.mp hc with hc | hc
        · exact hds c hc
        · simp only [List.mem_singleton] at hc
          rw [hc]
          exact digit_isDigit _ (Nat.mod_lt _ (by decide))
      · intro hd0
        exfalso
        -- the leading digit of a number that is at least ten is not zero
        have key : ∀ (g m : Nat) (a : Str), m < g → m ≠ 0 →
            ∀ e es, decimalAux g m a = e :: es → e ≠ '0' := by
          intro g
          induction g with
          | zero => intro m a hm; omega
          | succ g ihg =>
            intro m a hm hm0 e es he
            rw [decimalAux] at he
            by_cases hm10 : m < 10
            · rw [if_pos hm10] at he
              simp only [List.cons.injEq] at he
              rw [← he.1]
              exact digit_ne_zero m hm10 hm0
            · rw [if_neg hm10] at he
              exact ihg (m / 10) _ (by omega) (by omega) e es he
        exact key f (n / 10) _ hlt (by omega) d _ heq hd0

theorem scanDigits_all (ds : Str) (h : ∀ c ∈ ds, c.isDigit = true) : scanDigits ds = (ds, []) := by
  induction ds with
  | nil => rfl
  | cons c cs ih =>
    have hc := h c (List.mem_cons_self c cs)
    have hcs := ih (fun x hx => h x (List.mem_cons_of_mem c hx))
    simp [scanDigits, hc, hcs]

theorem decimal_spec (n : Nat) :
    ∃ d ds, decimal n = d :: ds ∧ d.isDigit = true ∧ (∀ c ∈ ds, c.isDigit = true) ∧
      (d = '0' → ds = []) := by
  obtain ⟨d, ds, heq, hd, hds, hz⟩ := decimalAux_spec (n + 1) n [] (by omega)
  exact ⟨d, ds, by rw [decimal, heq]; simp, hd, hds, hz⟩

theorem isDigit_ne_minus (d : Char) (h : d.isDigit = true) : d ≠ '-' := by
  intro e
  subst e
  simp [Char.isDigit] at h

/-- The numeral `decimal n` is a numeral of the JSON grammar. -/
theorem isNumeral_decimal (n : Nat) : IsNumeral (decimal n) := by
  obtain ⟨d, ds, heq, hd, hds, hz⟩ := decimal_spec n
  unfold IsNumeral
  rw [heq]
  have hm : ¬ d = '-' := isDigit_ne_minus d hd
  simp only [scanNumber, hm, if_false, scanUnsigned, scanInt]
  by_cases h0 : d = '0'
  · rw [hz h0]
    simp [h0, scanFrac, scanExp]
  · simp [h0, hd, scanDigits_all ds hds, scanFrac, scanExp]

/-! ### Values -/

theorem skipWs_cons (c : Char) (tail : Str) (h : isWs c = false) :
    skipWs (c :: tail) = c :: tail := by
  simp [skipWs, h]

/-- A numeral begins with a sign or a digit. -/
theorem numeral_head (s : Str) (h : IsNumeral s) :
    ∃ c cs, s = c :: cs ∧ (c = '-' ∨ c.isDigit = true) := by
  unfold IsNumeral at h
  cases s with
  | nil => simp [scanNumber] at h
  | cons c cs =>
    refine ⟨c, cs, rfl, ?_⟩
    by_cases hm : c = '-'
    · exact Or.inl hm
    · right
      simp only [scanNumber, hm, if_false, scanUnsigned, scanInt] at h
      by_cases h0 : c = '0'
      · subst h0
        rfl
      · by_cases hd : c.isDigit = true
        · exact hd
        · simp [h0, hd] at h

/-- The first character of a numeral is none of the characters that begin
another kind of value, nor white space, nor a closing bracket. -/
theorem numeral_head_facts (c : Char) (h : c = '-' ∨ c.isDigit = true) :
    isWs c = false ∧ c ≠ 'n' ∧ c ≠ 't' ∧ c ≠ 'f' ∧ c ≠ '"' ∧ c ≠ '[' ∧ c ≠ '{' ∧ c ≠ ']' ∧
      c ≠ '}' := by
  rcases h with h | h
  · subst h
    decide
  · have hv : 48 ≤ c.val ∧ c.val ≤ 57 := by
      simpa [Char.isDigit] using h
    refine ⟨?_, ?_, ?_, ?_, ?_, ?_, ?_, ?_, ?_⟩
    · cases hw : isWs c with
      | false => rfl
      | true =>
        exfalso
        simp only [isWs, Bool.or_eq_true, decide_eq_true_eq] at hw
        rcases hw with ((hw | hw) | hw) | hw <;> subst hw <;> simp at hv
    all_goals
      intro e
      subst e
      simp at hv

/-- The text of a valid value begins with a character that is not white space
and closes neither an array nor an object. -/
theorem stringify_head (j : Json) (hv : j.Valid) :
    ∃ c tail, j.stringify = c :: tail ∧ isWs c = false ∧ c ≠ ']' ∧ c ≠ '}' := by
  cases j with
  | null =>
    exact ⟨'n', ['u', 'l', 'l'], by simp [Json.stringify], by decide, by decide, by decide⟩
  | bool b =>
    cases b
    · exact ⟨'f', ['a', 'l', 's', 'e'], by simp [Json.stringify], by decide, by decide,
        by decide⟩
    · exact ⟨'t', ['r', 'u', 'e'], by simp [Json.stringify], by decide, by decide, by decide⟩
  | num numeral =>
    simp only [Json.Valid] at hv
    obtain ⟨c, cs, hs, hc⟩ := numeral_head numeral hv
    have hf := numeral_head_facts c hc
    exact ⟨c, cs, by simp [Json.stringify, hs], hf.1, hf.2.2.2.2.2.2.2.1, hf.2.2.2.2.2.2.2.2⟩
  | str s =>
    exact ⟨'"', escape s ++ ['"'], by simp [Json.stringify, quote], by decide, by decide,
      by decide⟩
  | arr items =>
    exact ⟨'[', stringifyItems items ++ [']'], by simp [Json.stringify], by decide, by decide,
      by decide⟩
  | obj members =>
    exact ⟨'{', stringifyMembers members ++ ['}'], by simp [Json.stringify], by decide,
      by decide, by decide⟩

theorem parseValue_null (fuel : Nat) (rest : Str) :
    parseValue (fuel + 1) ('n' :: 'u' :: 'l' :: 'l' :: rest) = some (.null, rest) := by
  rw [parseValue]
  simp [skipWs, isWs, expectWord, startsWith]

theorem parseValue_true (fuel : Nat) (rest : Str) :
    parseValue (fuel + 1) ('t' :: 'r' :: 'u' :: 'e' :: rest) = some (.bool true, rest) := by
  rw [parseValue]
  simp [skipWs, isWs, expectWord, startsWith]

theorem parseValue_false (fuel : Nat) (rest : Str) :
    parseValue (fuel + 1) ('f' :: 'a' :: 'l' :: 's' :: 'e' :: rest) =
      some (.bool false, rest) := by
  rw [parseValue]
  simp [skipWs, isWs, expectWord, startsWith]

theorem parseValue_str (fuel : Nat) (s rest : Str) :
    parseValue (fuel + 1) (quote s ++ rest) = some (.str s, rest) := by
  rw [parseValue]
  simp [quote, skipWs, isWs, parseStringBody_escape]

theorem parseValue_num (fuel : Nat) (numeral rest : Str) (h : IsNumeral numeral)
    (hr : Terminated rest) :
    parseValue (fuel + 1) (numeral ++ rest) = some (.num numeral, rest) := by
  obtain ⟨c, cs, hs, hc⟩ := numeral_head numeral h
  obtain ⟨h0, h1, h2, h3, h4, h5, h6, _, _⟩ := numeral_head_facts c hc
  have hscan := scanNumber_append numeral rest (numStop_of_terminated rest hr) h
  rw [hs] at hscan ⊢
  rw [parseValue]
  simp only [List.cons_append, skipWs_cons _ _ h0, h1, h2, h3, h4, h5, h6, if_false]
  simp only [List.cons_append] at hscan
  rw [hscan]

theorem parseValue_arr_nil (fuel : Nat) (rest : Str) :
    parseValue (fuel + 1) ('[' :: ']' :: rest) = some (.arr [], rest) := by
  rw [parseValue]
  simp [skipWs, isWs]

theorem parseValue_obj_nil (fuel : Nat) (rest : Str) :
    parseValue (fuel + 1) ('{' :: '}' :: rest) = some (.obj [], rest) := by
  rw [parseValue]
  simp [skipWs, isWs]

theorem parseValue_arr_cons (fuel : Nat) (c : Char) (tail : Str) (h1 : isWs c = false)
    (h2 : c ≠ ']') :
    parseValue (fuel + 1) ('[' :: c :: tail) =
      (match parseItems fuel (c :: tail) with
        | some (items, rest2) => some (.arr items, rest2)
        | none => none) := by
  rw [parseValue, skipWs_cons '[' _ (by decide)]
  simp only [show ¬ ('[' = 'n') by decide, show ¬ ('[' = 't') by decide,
    show ¬ ('[' = 'f') by decide, show ¬ ('[' = '"') by decide, if_false, if_true,
    skipWs_cons c tail h1, h2]

theorem parseValue_obj_cons (fuel : Nat) (c : Char) (tail : Str) (h1 : isWs c = false)
    (h2 : c ≠ '}') :
    parseValue (fuel + 1) ('{' :: c :: tail) =
      (match parseMembers fuel (c :: tail) with
        | some (members, rest2) => some (.obj members, rest2)
        | none => none) := by
  rw [parseValue, skipWs_cons '{' _ (by decide)]
  simp only [show ¬ ('{' = 'n') by decide, show ¬ ('{' = 't') by decide,
    show ¬ ('{' = 'f') by decide, show ¬ ('{' = '"') by decide,
    show ¬ ('{' = '[') by decide, if_false, if_true, skipWs_cons c tail h1, h2]

theorem parseItems_step (fuel : Nat) (s follow : Str) (v : Json)
    (h : parseValue fuel s = some (v, follow)) :
    (∀ rest, follow = ']' :: rest → parseItems (fuel + 1) s = some ([v], rest)) ∧
    (∀ tail vs rest, follow = ',' :: tail → parseItems fuel tail = some (vs, rest) →
      parseItems (fuel + 1) s = some (v :: vs, rest)) := by
  constructor
  · intro rest hf
    rw [parseItems, h, hf]
    simp [skipWs, isWs]
  · intro tail vs rest hf ht
    rw [parseItems, h, hf]
    simp [skipWs, isWs, ht]

theorem parseMembers_step (fuel : Nat) (k s follow : Str) (v : Json)
    (h : parseValue fuel s = some (v, follow)) :
    (∀ rest, follow = '}' :: rest →
      parseMembers (fuel + 1) (quote k ++ ':' :: s) = some ([(k, v)], rest)) ∧
    (∀ tail ms rest, follow = ',' :: tail → parseMembers fuel tail = some (ms, rest) →
      parseMembers (fuel + 1) (quote k ++ ':' :: s) = some ((k, v) :: ms, rest)) := by
  constructor
  · intro rest hf
    rw [parseMembers]
    simp [quote, skipWs, isWs, parseStringBody_escape, h, hf]
  · intro tail ms rest hf ht
    rw [parseMembers]
    simp [quote, skipWs, isWs, parseStringBody_escape, h, hf, ht]

mutual
/-- The parser reads back the text of a valid value, whatever follows it. -/
theorem parseValue_stringify : ∀ (j : Json) (rest : Str) (fuel : Nat), j.Valid →
    Terminated rest → j.size ≤ fuel → parseValue fuel (j.stringify ++ rest) = some (j, rest)
  | .null, rest, fuel, _, _, hf => by
    obtain ⟨f, rfl⟩ : ∃ f, fuel = f + 1 := ⟨fuel - 1, by simp [Json.size] at hf; omega⟩
    simpa [Json.stringify] using parseValue_null f rest
  | .bool b, rest, fuel, _, _, hf => by
    obtain ⟨f, rfl⟩ : ∃ f, fuel = f + 1 := ⟨fuel - 1, by simp [Json.size] at hf; omega⟩
    cases b
    · simpa [Json.stringify] using parseValue_false f rest
    · simpa [Json.stringify] using parseValue_true f rest
  | .num numeral, rest, fuel, hv, hr, hf => by
    obtain ⟨f, rfl⟩ : ∃ f, fuel = f + 1 := ⟨fuel - 1, by simp [Json.size] at hf; omega⟩
    simp only [Json.Valid] at hv
    simpa [Json.stringify] using parseValue_num f numeral rest hv hr
  | .str s, rest, fuel, _, _, hf => by
    obtain ⟨f, rfl⟩ : ∃ f, fuel = f + 1 := ⟨fuel - 1, by simp [Json.size] at hf; omega⟩
    simpa [Json.stringify] using parseValue_str f s rest
  | .arr [], rest, fuel, _, _, hf => by
    obtain ⟨f, rfl⟩ : ∃ f, fuel = f + 1 := ⟨fuel - 1, by simp [Json.size] at hf; omega⟩
    simpa [Json.stringify, stringifyItems] using parseValue_arr_nil f rest
  | .arr (v :: vs), rest, fuel, hv, _, hf => by
    obtain ⟨f, rfl⟩ : ∃ f, fuel = f + 1 := ⟨fuel - 1, by simp [Json.size] at hf; omega⟩
    have hsize : sizeItems (v :: vs) ≤ f := by
      simp only [Json.size] at hf
      omega
    simp only [Json.Valid] at hv
    have hitems := parseItems_stringify (v :: vs) rest f (by simp) hv hsize
    obtain ⟨c, tail, hc, hws, hne, _⟩ : ∃ c tail, stringifyItems (v :: vs) ++ ']' :: rest =
        c :: tail ∧ isWs c = false ∧ c ≠ ']' ∧ c ≠ '}' := by
      obtain ⟨c, t, hst, h1, h2, h3⟩ := stringify_head v hv.1
      cases vs with
      | nil => exact ⟨c, t ++ ']' :: rest, by simp [stringifyItems, hst], h1, h2, h3⟩
      | cons w r =>
        exact ⟨c, t ++ ',' :: stringifyItems (w :: r) ++ ']' :: rest,
          by simp [stringifyItems, hst], h1, h2, h3⟩
    have e : (Json.arr (v :: vs)).stringify ++ rest =
        '[' :: (stringifyItems (v :: vs) ++ ']' :: rest) := by
      simp [Json.stringify]
    rw [e, hc, parseValue_arr_cons f c tail hws hne, ← hc, hitems]
  | .obj [], rest, fuel, _, _, hf => by
    obtain ⟨f, rfl⟩ : ∃ f, fuel = f + 1 := ⟨fuel - 1, by simp [Json.size] at hf; omega⟩
    simpa [Json.stringify, stringifyMembers] using parseValue_obj_nil f rest
  | .obj (m :: ms), rest, fuel, hv, _, hf => by
    obtain ⟨f, rfl⟩ : ∃ f, fuel = f + 1 := ⟨fuel - 1, by simp [Json.size] at hf; omega⟩
    have hsize : sizeMembers (m :: ms) ≤ f := by
      simp only [Json.size] at hf
      omega
    simp only [Json.Valid] at hv
    have hmembers := parseMembers_stringify (m :: ms) rest f (by simp) hv hsize
    obtain ⟨tail, hc⟩ : ∃ tail, stringifyMembers (m :: ms) ++ '}' :: rest = '"' :: tail := by
      obtain ⟨k, v⟩ := m
      cases ms with
      | nil => exact ⟨_, by simp [stringifyMembers, quote]; rfl⟩
      | cons w r => exact ⟨_, by simp [stringifyMembers, quote]; rfl⟩
    have e : (Json.obj (m :: ms)).stringify ++ rest =
        '{' :: (stringifyMembers (m :: ms) ++ '}' :: rest) := by
      simp [Json.stringify]
    rw [e, hc, parseValue_obj_cons f '"' tail (by decide) (by decide), ← hc, hmembers]
/-- The parser reads back the elements of a non-empty array. -/
theorem parseItems_stringify : ∀ (items : List Json) (rest : Str) (fuel : Nat), items ≠ [] →
    validItems items → sizeItems items ≤ fuel →
    parseItems fuel (stringifyItems items ++ ']' :: rest) = some (items, rest)
  | [], _, _, h, _, _ => absurd rfl h
  | [v], rest, fuel, _, hv, hf => by
    obtain ⟨f, rfl⟩ : ∃ f, fuel = f + 1 := ⟨fuel - 1, by simp [sizeItems] at hf; omega⟩
    have hsize : v.size ≤ f := by
      simp only [sizeItems] at hf
      omega
    simp only [validItems] at hv
    have h1 := parseValue_stringify v (']' :: rest) f hv.1
      (Or.inr ⟨']', rest, rfl, Or.inr (Or.inl rfl)⟩) hsize
    simpa [stringifyItems] using (parseItems_step f _ _ v h1).1 rest rfl
  | v :: w :: r, rest, fuel, _, hv, hf => by
    obtain ⟨f, rfl⟩ : ∃ f, fuel = f + 1 := ⟨fuel - 1, by simp [sizeItems] at hf; omega⟩
    have hsize : v.size ≤ f ∧ sizeItems (w :: r) ≤ f := by
      simp only [sizeItems] at hf ⊢
      omega
    simp only [validItems] at hv
    have h1 := parseValue_stringify v (',' :: (stringifyItems (w :: r) ++ ']' :: rest)) f hv.1
      (Or.inr ⟨',', _, rfl, Or.inl rfl⟩) hsize.1
    have h2 := parseItems_stringify (w :: r) rest f (by simp) hv.2 hsize.2
    have := (parseItems_step f _ _ v h1).2 _ _ rest rfl h2
    simpa [stringifyItems] using this
/-- The parser reads back the members of a non-empty object. -/
theorem parseMembers_stringify : ∀ (members : List (Str × Json)) (rest : Str) (fuel : Nat),
    members ≠ [] → validMembers members → sizeMembers members ≤ fuel →
    parseMembers fuel (stringifyMembers members ++ '}' :: rest) = some (members, rest)
  | [], _, _, h, _, _ => absurd rfl h
  | [(k, v)], rest, fuel, _, hv, hf => by
    obtain ⟨f, rfl⟩ : ∃ f, fuel = f + 1 := ⟨fuel - 1, by simp [sizeMembers] at hf; omega⟩
    have hsize : v.size ≤ f := by
      simp only [sizeMembers] at hf
      omega
    simp only [validMembers] at hv
    have h1 := parseValue_stringify v ('}' :: rest) f hv.1
      (Or.inr ⟨'}', rest, rfl, Or.inr (Or.inr rfl)⟩) hsize
    simpa [stringifyMembers] using (parseMembers_step f k _ _ v h1).1 rest rfl
  | (k, v) :: m :: r, rest, fuel, _, hv, hf => by
    obtain ⟨f, rfl⟩ : ∃ f, fuel = f + 1 := ⟨fuel - 1, by simp [sizeMembers] at hf; omega⟩
    have hsize : v.size ≤ f ∧ sizeMembers (m :: r) ≤ f := by
      simp only [sizeMembers] at hf ⊢
      omega
    simp only [validMembers] at hv
    have h1 := parseValue_stringify v (',' :: (stringifyMembers (m :: r) ++ '}' :: rest)) f hv.1
      (Or.inr ⟨',', _, rfl, Or.inl rfl⟩) hsize.1
    have h2 := parseMembers_stringify (m :: r) rest f (by simp) hv.2 hsize.2
    have := (parseMembers_step f k _ _ v h1).2 _ _ rest rfl h2
    simpa [stringifyMembers] using this
end

/-! ### Whole texts -/

theorem numeral_length (s : Str) (h : IsNumeral s) : 1 ≤ s.length := by
  obtain ⟨c, cs, hs, _⟩ := numeral_head s h
  rw [hs]
  simp

mutual
/-- The fuel `jsonParse` gives is enough for the text of a valid value. -/
theorem size_le_length : ∀ j : Json, j.Valid → j.size + 1 ≤ 2 * j.stringify.length
  | .null, _ => by simp [Json.size, Json.stringify]
  | .bool b, _ => by cases b <;> simp [Json.size, Json.stringify]
  | .num numeral, hv => by
    simp only [Json.Valid] at hv
    have := numeral_length numeral hv
    simp only [Json.size, Json.stringify]
    omega
  | .str s, _ => by
    simp only [Json.size, Json.stringify, quote, List.length_cons, List.length_append,
      List.length_singleton]
    omega
  | .arr items, hv => by
    simp only [Json.Valid] at hv
    have := sizeItems_le_length items hv
    simp only [Json.size, Json.stringify, List.length_cons, List.length_append,
      List.length_singleton]
    omega
  | .obj members, hv => by
    simp only [Json.Valid] at hv
    have := sizeMembers_le_length members hv
    simp only [Json.size, Json.stringify, List.length_cons, List.length_append,
      List.length_singleton]
    omega
/-- The bound for the elements of an array. -/
theorem sizeItems_le_length : ∀ items : List Json, validItems items →
    sizeItems items ≤ 2 * (stringifyItems items).length
  | [], _ => by simp [sizeItems]
  | [v], hv => by
    simp only [validItems] at hv
    have := size_le_length v hv.1
    simp only [sizeItems, stringifyItems]
    omega
  | v :: w :: r, hv => by
    simp only [validItems] at hv
    have h1 := size_le_length v hv.1
    have h2 := sizeItems_le_length (w :: r) hv.2
    simp only [sizeItems, stringifyItems, List.length_cons, List.length_append] at h2 ⊢
    omega
/-- The bound for the members of an object. -/
theorem sizeMembers_le_length : ∀ members : List (Str × Json), validMembers members →
    sizeMembers members ≤ 2 * (stringifyMembers members).length
  | [], _ => by simp [sizeMembers]
  | [(k, v)], hv => by
    simp only [validMembers] at hv
    have := size_le_length v hv.1
    simp only [sizeMembers, stringifyMembers, List.length_cons, List.length_append]
    omega
  | (k, v) :: m :: r, hv => by
    simp only [validMembers] at hv
    have h1 := size_le_length v hv.1
    have h2 := sizeMembers_le_length (m :: r) hv.2
    simp only [sizeMembers, stringifyMembers, List.length_cons, List.length_append] at h2 ⊢
    omega
end

/-- The function `JSON.parse` returns the value whose text `JSON.stringify`
wrote. -/
theorem jsonParse_stringify (j : Json) (hv : j.Valid) : jsonParse j.stringify = some j := by
  have hsize := size_le_length j hv
  have h := parseValue_stringify j [] (2 * j.stringify.length + 2) hv (Or.inl rfl) (by omega)
  rw [List.append_nil] at h
  unfold jsonParse
  rw [h]
  simp [skipWs]

theorem valid_ofNat (n : Nat) : (Json.ofNat n).Valid := by
  simp only [Json.ofNat, Json.Valid]
  exact isNumeral_decimal n

theorem valid_interaction (i : Interaction) (h : i.details.Valid) : i.toJson.Valid := by
  have hn := valid_ofNat i.timestamp
  unfold Interaction.toJson
  rw [Json.Valid]
  simp only [validMembers]
  exact ⟨hn, trivial, trivial, trivial, trivial, h, trivial, trivial⟩

theorem valid_interactions (l : List Interaction) (h : ∀ i ∈ l, i.details.Valid) :
    validItems (l.map Interaction.toJson) := by
  induction l with
  | nil => simp [validItems]
  | cons a rest ih =>
    simp only [List.map_cons, validItems]
    exact ⟨valid_interaction a (h a (List.mem_cons_self a rest)),
      ih (fun i hi => h i (List.mem_cons_of_mem a hi))⟩

/-! ## The interactions cookie -/

theorem trackInteractions_concat (calls : List InteractionCall) (c : InteractionCall)
    (w : World) :
    trackInteractions (calls ++ [c]) w =
      trackInteraction c.type c.element c.details (trackInteractions calls w) := by
  simp [trackInteractions, List.foldl_append]

theorem trackInteraction_cookies (type : Str) (element : Option Element)
    (details : Option Json) (w : World) :
    (trackInteraction type element details w).cookies =
      (flushBody
        { w.tick with
          analytics :=
            { w.tick.analytics with
              interactions := w.tick.analytics.interactions ++
                [newInteraction type element details w] } }).1.cookies := by
  unfold trackInteraction
  rw [saveAnalyticsToCookie_cookies]

theorem trackInteraction_wf (type : Str) (element : Option Element) (details : Option Json)
    (w : World) (h : JarWF w.cookies) :
    JarWF (trackInteraction type element details w).cookies := by
  rw [trackInteraction_cookies]
  exact flushBody_wf _ h

theorem trackInteraction_flushFault (type : Str) (element : Option Element)
    (details : Option Json) (w : World) :
    (trackInteraction type element details w).flushFault = w.flushFault := by
  unfold trackInteraction
  simp only [saveAnalyticsToCookie_flushFault, tick_flushFault]

/-- What a sequence of calls keeps: the store well formed, the fault as it was,
one record more per call, every record with valid details. -/
theorem trackInteractions_invariant (calls : List InteractionCall) (w : World)
    (hjar : JarWF w.cookies) (hlog : ∀ i ∈ w.analytics.interactions, i.details.Valid)
    (hvalid : ∀ c ∈ calls, ∀ d, c.details = some d → d.Valid) :
    JarWF (trackInteractions calls w).cookies ∧
    (trackInteractions calls w).flushFault = w.flushFault ∧
    (trackInteractions calls w).analytics.interactions.length =
      w.analytics.interactions.length + calls.length ∧
    (∀ i ∈ (trackInteractions calls w).analytics.interactions, i.details.Valid) := by
  induction calls using List.reverseRecOn with
  | nil => exact ⟨hjar, rfl, rfl, hlog⟩
  | append_singleton calls c ih =>
    obtain ⟨h1, h2, h3, h4⟩ := ih (fun x hx => hvalid x (List.mem_append_left _ hx))
    rw [trackInteractions_concat]
    refine ⟨trackInteraction_wf _ _ _ _ h1, by rw [trackInteraction_flushFault, h2], ?_, ?_⟩
    · rw [trackInteraction_analytics]
      simp only [List.length_append, List.length_singleton, h3]
      omega
    · rw [trackInteraction_analytics]
      intro i hi
      rcases List.mem_append.mp hi with hi | hi
      · exact h4 i hi
      · simp only [List.mem_singleton] at hi
        rw [hi]
        simp only [newInteraction]
        cases hd : c.details with
        | none => simp [Json.Valid, validMembers]
        | some d => exact hvalid c (by simp) d hd

theorem trimLeft_cons (c : Char) (s : Str) (h1 : c ≠ ' ') (h2 : c ≠ '\t') :
    trimLeft (c :: s) = c :: s := by
  simp [trimLeft, h1, h2]

/-- A text between brackets has no white space to trim. -/
theorem trim_brackets (body : Str) : trim ('[' :: body ++ [']']) = '[' :: body ++ [']'] := by
  unfold trim
  have e : '[' :: body ++ [']'] = '[' :: (body ++ [']']) := rfl
  rw [e, trimLeft_cons '[' _ (by decide) (by decide)]
  have r : ('[' :: (body ++ [']'])).reverse = ']' :: (body.reverse ++ ['[']) := by simp
  rw [r, trimLeft_cons ']' _ (by decide) (by decide)]
  simp

/-- The store after a flush without failure: the three cookies written. -/
theorem flushBody_cookies_ok (w : World) (h : w.flushFault = none) :
    (flushBody w).1.cookies = writeAll (flushWrites w) w.cookies := by
  unfold flushBody
  simp [h, writeAll, flushWrites]

/-- After a flush without failure the store holds, under
`analytics_interactions`, the text of the last 20 records, when that text has
no semicolon. -/
theorem flush_interactions_value (w : World) (h : w.flushFault = none)
    (hsemi : ';' ∉ interactionsText w.analytics) :
    cookieValue "analytics_interactions".toList (flushBody w).1.cookies =
      some (interactionsText w.analytics) := by
  rw [flushBody_cookies_ok w h]
  simp only [writeAll, flushWrites, List.foldl_cons, List.foldl_nil]
  rw [assignCookie_clean _ _ _ analytics_theme_changes_clean,
    cookieValue_storeCookie_other _ _ _ _ (by decide),
    assignCookie_clean _ _ _ analytics_interactions_clean, cookieValue_storeCookie_same,
    takeWhile_eq_self _ _ (ne_of_not_mem ';' _ hsemi)]
  have : interactionsText w.analytics =
      '[' :: stringifyItems ((sliceLast 20 w.analytics.interactions).map Interaction.toJson) ++
        [']'] := by
    simp [interactionsText, Json.stringify]
  rw [this, trim_brackets]

theorem length_sliceLast (n : Nat) (l : List α) : (sliceLast n l).length = min l.length n := by
  simp only [sliceLast, List.length_drop]
  omega

theorem mem_sliceLast (n : Nat) (l : List α) (x : α) (h : x ∈ sliceLast n l) : x ∈ l :=
  List.mem_of_mem_drop h

set_option maxRecDepth 100000 in
/-- C2, as stated, fails in two ways. A record whose text holds a semicolon
cuts the cookie short: after the one call `trackInteraction('a;b', null)` on a
fresh page the log has one record, but `getCookie` reads back a text that ends
at the semicolon, which `JSON.parse` rejects, and `getAnalyticsData()` reports
no interaction. And with no call made (N = 0), on a page loaded again, the
cookie still holds the record of the earlier visit although the log is empty. -/
theorem interactions_cookie_counterexample :
    (trackInteraction "a;b".toList none none freshWorld).analytics.interactions.length = 1 ∧
    getCookie (documentCookie (trackInteraction "a;b".toList none none freshWorld).cookies)
        "analytics_interactions".toList =
      some "[\x7b\"timestamp\":1000,\"type\":\"a".toList ∧
    jsonParse "[\x7b\"timestamp\":1000,\"type\":\"a".toList = none ∧
    (getAnalyticsData
      (trackInteraction "a;b".toList none none freshWorld)).interactions.stringify =
        "[]".toList ∧
    (trackInteractions [] revisitedWorld).analytics.interactions = [] ∧
    getCookie (documentCookie (trackInteractions [] revisitedWorld).cookies)
        "analytics_interactions".toList =
      some ("[\x7b\"timestamp\":1000,\"type\":\"click\",\"element\":\"unknown\"," ++
        "\"elementId\":\"none\",\"elementClass\":\"none\",\"details\":\x7b\x7d," ++
        "\"page\":\"/\"\x7d]").toList := by
  refine ⟨by decide, by decide, rfl, by decide, rfl, by decide⟩

/-- C2 (amended): for every N >= 1, starting from an empty interaction log and
a well-formed cookie store, after N calls to `trackInteraction` with no failure
in the flush, when the text of the retained records holds no semicolon: the
value `getCookie` reads back under `analytics_interactions` is the text of
exactly `min(N, 20)` records, and `JSON.parse` turns it into the list of the
last `min(N, 20)` records of the in-memory interaction log, in the same
(chronological) order. -/
theorem interactions_cookie (w : World) (calls : List InteractionCall)
    (hcalls : calls ≠ [])
    (hlog : w.analytics.interactions = [])
    (hjar : JarWF w.cookies)
    (hfault : w.flushFault = none)
    (hsemi : ';' ∉ interactionsText (trackInteractions calls w).analytics)
    (hvalid : ∀ c ∈ calls, ∀ d, c.details = some d → d.Valid) :
    (trackInteractions calls w).analytics.interactions.length = calls.length ∧
    (sliceLast 20 (trackInteractions calls w).analytics.interactions).length =
      min calls.length 20 ∧
    sliceLast 20 (trackInteractions calls w).analytics.interactions =
      (trackInteractions calls w).analytics.interactions.drop
        (calls.length - min calls.length 20) ∧
    getCookie (documentCookie (trackInteractions calls w).cookies)
        "analytics_interactions".toList =
      some (Json.arr ((sliceLast 20 (trackInteractions calls w).analytics.interactions).map
        Interaction.toJson)).stringify ∧
    jsonParse (Json.arr ((sliceLast 20 (trackInteractions calls w).analytics.interactions).map
        Interaction.toJson)).stringify =
      some (Json.arr ((sliceLast 20 (trackInteractions calls w).analytics.interactions).map
        Interaction.toJson)) := by
  obtain ⟨hwf, _, hlen, hval⟩ := trackInteractions_invariant calls w hjar
    (by rw [hlog]; simp) hvalid
  have hlen' : (trackInteractions calls w).analytics.interactions.length = calls.length := by
    rw [hlen, hlog]
    simp
  refine ⟨hlen', by rw [length_sliceLast, hlen'], ?_, ?_, ?_⟩
  · rw [sliceLast, hlen']
    congr 1
    omega
  · rw [getCookie_documentCookie _ _ hwf (by decide)]
    obtain ⟨init, c, rfl⟩ : ∃ init c, calls = init ++ [c] :=
      ⟨calls.dropLast, calls.getLast hcalls, (List.dropLast_append_getLast hcalls).symm⟩
    obtain ⟨_, hf, _, _⟩ := trackInteractions_invariant init w hjar (by rw [hlog]; simp)
      (fun x hx => hvalid x (List.mem_append_left _ hx))
    rw [trackInteractions_concat] at hsemi ⊢
    rw [trackInteraction_analytics] at hsemi ⊢
    rw [trackInteraction_cookies]
    exact flush_interactions_value _ (by simp only [tick_flushFault, hf, hfault]) hsemi
  · apply jsonParse_stringify
    rw [Json.Valid]
    exact valid_interactions _ (fun i hi => hval i (mem_sliceLast _ _ _ hi))

theorem interactions_cookie_witness :
    (trackInteractions [⟨"click".toList, none, none⟩, ⟨"scroll".toList, none, none⟩]
      freshWorld).analytics.interactions.length = 2 ∧
    (sliceLast 20 (trackInteractions [⟨"click".toList, none, none⟩,
      ⟨"scroll".toList, none, none⟩] freshWorld).analytics.interactions).length = min 2 20 ∧
    getCookie (documentCookie (trackInteractions [⟨"click".toList, none, none⟩,
        ⟨"scroll".toList, none, none⟩] freshWorld).cookies) "analytics_interactions".toList =
      some (Json.arr ((sliceLast 20 (trackInteractions [⟨"click".toList, none, none⟩,
        ⟨"scroll".toList, none, none⟩] freshWorld).analytics.interactions).map
          Interaction.toJson)).stringify :=
  ⟨(interactions_cookie freshWorld
      [⟨"click".toList, none, none⟩, ⟨"scroll".toList, none, none⟩] (by simp) rfl
      ⟨by simp [freshWorld], by simp [freshWorld]⟩ rfl (by decide)
      (by intro c hc d hd; simp at hc; rcases hc with rfl | rfl <;> simp at hd)).1,
    (interactions_cookie freshWorld
      [⟨"click".toList, none, none⟩, ⟨"scroll".toList, none, none⟩] (by simp) rfl
      ⟨by simp [freshWorld], by simp [freshWorld]⟩ rfl (by decide)
      (by intro c hc d hd; simp at hc; rcases hc with rfl | rfl <;> simp at hd)).2.1,
    (interactions_cookie freshWorld
      [⟨"click".toList, none, none⟩, ⟨"scroll".toList, none, none⟩] (by simp) rfl
      ⟨by simp [freshWorld], by simp [freshWorld]⟩ rfl (by decide)
      (by intro c hc d hd; simp at hc; rcases hc with rfl | rfl <;> simp at hd)).2.2.2.1⟩


end ThemeAnalytics
